import Mathlib

/- Shallow embedding of the llama.cpp webui chat core:
   the message tree store, the branch resolver and the generation controller
   (src/examples/server/webui/src/utils/app.context.tsx and
   src/examples/server/webui/src/components/ChatScreen.tsx).
   Text is modelled as lists of characters; wall-clock readings, network
   responses and streamed chunks are explicit parameters of each operation. -/

abbrev Str := List Char

def str (s : String) : Str := s.data

/-- TimingReport from the shared types module (src/unnamed/part_000). -/
structure TimingReport where
  prompt_n : Int
  prompt_ms : Int
  predicted_n : Int
  predicted_ms : Int
deriving DecidableEq

inductive MsgType where
  | text
  | root
deriving DecidableEq

inductive Role where
  | user
  | assistant
  | system
deriving DecidableEq

inductive MessageExtra where
  | textFile (name : Str) (content : Str)
  | context (content : Str)
deriving DecidableEq

/-- Message node (src/unnamed/part_000). `content` is `none` only while the
node is a pending (in-flight) message, mirroring `PendingMessage`. -/
structure Message where
  id : Int
  convId : Str
  type : MsgType
  timestamp : Int
  role : Role
  content : Option Str
  timings : Option TimingReport := none
  extra : Option (List MessageExtra) := none
  parent : Int
  children : List Int
deriving DecidableEq

structure Conversation where
  id : Str
  lastModified : Int
  currNode : Int
  name : Str
deriving DecidableEq

/-- One parsed SSE frame: `{choices: [{delta: {content?}}], timings?, error?}`. -/
structure Chunk where
  error : Option Str := none
  content : Option Str := none
  timings : Option TimingReport := none
deriving DecidableEq

/-- How the streamed body of one request ends: normal exhaustion, an abort
signal raised by `stopGenerating`, or a non-abort failure. -/
inductive StreamTerm where
  | done
  | aborted
  | errored (msg : Str)
deriving DecidableEq

/-- Outcome of the `fetch` to `/v1/chat/completions`: `ok` is `status === 200`,
`errMsg` the parsed body error for a non-200 response, `chunks` the frames
delivered before `term` ends the stream. -/
structure FetchOutcome where
  ok : Bool
  errMsg : Str := []
  chunks : List Chunk
  term : StreamTerm
deriving DecidableEq

/-- The mutable state of the app context: the persisted store (conversations
and all message nodes) plus the per-conversation pending-message and
abort-controller maps. -/
structure AppState where
  convs : List Conversation
  msgs : List Message
  pending : List (Str × Message)
  aborts : List Str
deriving DecidableEq

/-- Effect parameters of one send/generate run: the RAG query response
(`none` models a failed fetch), the wall-clock readings taken at conversation
creation, at the user-message append and inside `generateMessage`, the
`showTokensPerSecond` config flag, and the completion request's outcome. -/
structure SendEnv where
  ragResp : Option (List (List Str)) := none
  convClock : Int
  sendClock : Int
  genClock : Int
  showTokensPerSecond : Bool := false
  out : FetchOutcome
deriving DecidableEq

/-- JS `content.startsWith(pre)`. -/
def startsWithStr (l pre : Str) : Bool := l.take pre.length == pre

/-- JS `content.trim()`. -/
def trimChars (l : Str) : Str :=
  ((l.dropWhile Char.isWhitespace).reverse.dropWhile Char.isWhitespace).reverse

/-- JS `s.replace(pat, rep)`: replace the first occurrence of `pat` only. -/
def replaceFirst (s pat rep : Str) : Str :=
  if startsWithStr s pat then rep ++ s.drop pat.length
  else
    match s with
    | [] => []
    | c :: rest => c :: replaceFirst rest pat rep

def intStr (i : Int) : Str := (toString i).data

/-- `setPending` from app.context.tsx: insert or delete the pending entry. -/
def setPending (s : AppState) (convId : Str) (pendingMsg : Option Message) : AppState :=
  match pendingMsg with
  | none => { s with pending := s.pending.filter (fun kv => !(kv.1 == convId)) }
  | some pm => { s with pending := (convId, pm) :: s.pending.filter (fun kv => !(kv.1 == convId)) }

/-- `setAbort` from app.context.tsx (register or delete an AbortController;
only its presence is modelled, the signal itself is the run's `StreamTerm`). -/
def setAbort (s : AppState) (convId : Str) (controller : Bool) : AppState :=
  if controller then { s with aborts := convId :: s.aborts.filter (fun k => !(k == convId)) }
  else { s with aborts := s.aborts.filter (fun k => !(k == convId)) }

/-- `isGenerating(convId) = !!pendingMessages[convId]`. -/
def isGenerating (s : AppState) (convId : Str) : Bool :=
  (s.pending.lookup convId).isSome

/-- Modelled from the spec: `StorageUtils.getOneConversation` is in the storage
module, which is not under src/. Spec 4.1: `getConversation(convId) ->
Conversation | absent`. -/
def getOneConversation (s : AppState) (convId : Str) : Option Conversation :=
  s.convs.find? (fun c => c.id == convId)

/-- Modelled from the spec: `StorageUtils.appendMsg` is in the storage module,
which is not under src/. Spec 4.1: validates the parent exists in the
conversation; sets `node.parent`; appends the id to the parent's `children`;
registers the node; updates the conversation's `currNode` and `lastModified`;
fails with NotFoundError (`none`) if the parent does not exist. -/
def appendMsg (s : AppState) (node : Message) (parentId : Int) : Option AppState :=
  match s.msgs.find? (fun q => q.id == parentId && q.convId == node.convId) with
  | none => none
  | some _ =>
    some { s with
      msgs := (s.msgs.map (fun q =>
          if q.id == parentId && q.convId == node.convId then
            { q with children := q.children ++ [node.id] }
          else q)) ++ [{ node with parent := parentId }],
      convs := s.convs.map (fun c =>
          if c.id == node.convId then
            { c with currNode := node.id, lastModified := node.timestamp }
          else c) }

/-- Modelled from the spec: `StorageUtils.createConversation` is in the storage
module, which is not under src/. Spec 3 and 4.1: a conversation id of format
`conv-<timestamp>`, a synthesized root node whose id derives from the creation
time, and `currNode` = root id. -/
def createConversation (s : AppState) (name : Str) (clock : Int) : AppState × Conversation :=
  let conv : Conversation :=
    { id := str "conv-" ++ intStr clock, lastModified := clock, currNode := clock, name := name }
  let rootMsg : Message :=
    { id := clock, convId := conv.id, type := MsgType.root, timestamp := clock,
      role := Role.system, content := some [], parent := -1, children := [] }
  ({ s with convs := s.convs ++ [conv], msgs := s.msgs ++ [rootMsg] }, conv)

/-- One iteration of the `for await (const chunk of chunks)` body, after the
`chunk.error` check: accumulate non-empty `delta.content` onto the pending
message and record the latest timing snapshot when configured. -/
def stepPending (showTokensPerSecond : Bool) (pm : Message) (c : Chunk) : Message :=
  let lastContent := pm.content.getD []
  let pm1 :=
    match c.content with
    | some t => if t = [] then pm else { pm with content := some (lastContent ++ t) }
    | none => pm
  match c.timings with
  | some tg => if showTokensPerSecond then { pm1 with timings := some tg } else pm1
  | none => pm1

/-- The streaming consumption loop of `generateMessage`: each chunk either
raises its `error`, or updates the pending message and stores it via
`setPending`. Returns the state, the final local pending message, and the
thrown error if any. -/
def consumeChunks (convId : Str) (showTokensPerSecond : Bool) :
    List Chunk → Message → AppState → AppState × Message × Option Str
  | [], pm, s => (s, pm, none)
  | c :: rest, pm, s =>
    match c.error with
    | some e => (s, pm, some e)
    | none =>
      let pm2 := stepPending showTokensPerSecond pm c
      consumeChunks convId showTokensPerSecond rest pm2 (setPending s convId (some pm2))

/-- Lines 275-279 of app.context.tsx, after the try/catch: if the accumulated
content is non-null the pending message is persisted as a child of
`leafNodeId` (a rejection of `appendMsg` propagates and leaves the pending
entry set); then the pending entry is cleared. -/
def persistPending (s : AppState) (convId : Str) (leafNodeId : Int) (pendingMsg : Message) :
    AppState × Option Str × List Str :=
  match pendingMsg.content with
  | some _ =>
    match appendMsg s pendingMsg leafNodeId with
    | some s2 => (setPending s2 convId none, none, [])
    | none => (s, some (str "NotFoundError"), [])
  | none => (setPending s convId none, none, [])

/-- `generateMessage` from app.context.tsx. Result: the state, the error it
throws (if any), and the list of `alert` messages it surfaces. The request
assembly (message list, sampling parameters, headers) is outbound I/O whose
outcome is the `FetchOutcome` parameter. An `AbortError` (term = aborted) is
caught and ignored; any other failure clears the pending entry, alerts, and
rethrows. After the catch, a non-null accumulated content is persisted - also
on the aborted path. -/
def generateMessage (s : AppState) (convId : Str) (leafNodeId : Int)
    (genClock : Int) (showTokensPerSecond : Bool) (out : FetchOutcome) :
    AppState × Option Str × List Str :=
  if isGenerating s convId then (s, none, [])
  else
    match getOneConversation s convId with
    | none => (s, some (str "Current conversation is not found"), [])
    | some _ =>
      let s1 := setAbort s convId true
      let pm : Message :=
        { id := genClock + 1, convId := convId, type := MsgType.text,
          timestamp := genClock + 1, role := Role.assistant, content := none,
          parent := leafNodeId, children := [] }
      let s2 := setPending s1 convId (some pm)
      if out.ok then
        match consumeChunks convId showTokensPerSecond out.chunks pm s2 with
        | (s3, _, some e) => (setPending s3 convId none, some e, [e])
        | (s3, pmFinal, none) =>
          match out.term with
          | StreamTerm.errored e => (setPending s3 convId none, some e, [e])
          | StreamTerm.aborted =>
            persistPending (setPending s3 convId none) convId leafNodeId pmFinal
          | StreamTerm.done => persistPending s3 convId leafNodeId pmFinal
      else (setPending s2 convId none, some out.errMsg, [out.errMsg])

def codebaseDirective : Str := str "You are a helpful assistant. The context provided below is automatically fetched and may include technical details such as repository names, file names, component names, class names, and function names. Before answering the user\u0027s query, carefully review all the provided context and integrate it if it is relevant. If any part of the context is ambiguous or unrelated to the query, ignore it. When referencing code, be as specific as possible by including repository names, file names, components, class names, and functions where applicable. Base your answer primarily on the valid context, and if the context is incomplete, note the ambiguity and only supplement with general knowledge as necessary. Prioritize clarity and precision in your response."

def productsDirective : Str := str "You are a helpful assistant tasked with selecting items based on the users input. The system has provided a list of 20 items. Your job is to evaluate these items and choose the top 5 that best match the users query. Use the users input to guide your selection, prioritizing relevance and accuracy."

def documentationDirective : Str := str "You are a helpful assistant. The system has provided a list documentation snippets. Your job is to evaluate these snippets and use any that are relevant. If a snippet is not relevant to the users query, then ignore it. If a snippet is used then site any particluar metadata about it such as file name, table name, column name."

def medRecordsDirective : Str := str "You are a medical assistant. Evaluate provided medical record snippets and use only relevant ones. Reformat any dates as needed. Cite metadata (file name, topic, caseId, type) for used snippets. Do not cite the actual snippet name, just file name. Ignore irrelevant snippets."

def ragFailAlert : Str := str "Failed to fetch context from RAG system."

/-- `fetchRAGCodebase`: the query fetch outcome is `resp` (`none` models any
failure: fetch rejection, non-ok status, parse error). Returns the rewritten
content (or `none` for the `false` failure marker) plus surfaced alerts. -/
def fetchRAGCodebase (resp : Option (List (List Str))) (content : Str) : Option Str × List Str :=
  match resp with
  | none => (none, [ragFailAlert])
  | some docs =>
    let allDocsString := List.intercalate (str " ") docs.flatten
    (some (replaceFirst content (str "/codebase")
        (codebaseDirective ++ str "\n\n" ++ allDocsString ++ str "\n\n" ++ content)), [])

/-- `fetchRAGProducts`. -/
def fetchRAGProducts (resp : Option (List (List Str))) (content : Str) : Option Str × List Str :=
  match resp with
  | none => (none, [ragFailAlert])
  | some docs =>
    let allDocsString := List.intercalate (str " ") docs.flatten
    (some (replaceFirst content (str "/products")
        (productsDirective ++ str "\n\n" ++ allDocsString ++ str "\n\n" ++ content)), [])

/-- `fetchRAGDocumentation`. -/
def fetchRAGDocumentation (resp : Option (List (List Str))) (content : Str) : Option Str × List Str :=
  match resp with
  | none => (none, [ragFailAlert])
  | some docs =>
    let allDocsString := List.intercalate (str " ") docs.flatten
    (some (replaceFirst content (str "/documentation")
        (documentationDirective ++ str "\n\n" ++ allDocsString ++ str "\n\n" ++ content)), [])

/-- `fetchRAGMedRecords`: prepends rather than substitutes. -/
def fetchRAGMedRecords (resp : Option (List (List Str))) (content : Str) : Option Str × List Str :=
  match resp with
  | none => (none, [ragFailAlert])
  | some docs =>
    let allDocsString := List.intercalate (str " ") docs.flatten
    (some (medRecordsDirective ++ str "\n\n" ++ allDocsString ++ str "\n\n" ++ content), [])

/-- Lines 294-318 of `sendMessage`: intercept a registered command prefix,
keep the original content when the transform reports failure. -/
def ragRewrite (ragResp : Option (List (List Str))) (content : Str) : Str × List Str :=
  if startsWithStr content (str "/codebase") then
    match fetchRAGCodebase ragResp content with
    | (some newContent, al) => (newContent, al)
    | (none, al) => (content, al)
  else if startsWithStr content (str "/products") then
    match fetchRAGProducts ragResp content with
    | (some newContent, al) => (newContent, al)
    | (none, al) => (content, al)
  else if startsWithStr content (str "/documentation") then
    match fetchRAGDocumentation ragResp content with
    | (some newContent, al) => (newContent, al)
    | (none, al) => (content, al)
  else if startsWithStr content (str "/medical_records") then
    match fetchRAGMedRecords ragResp content with
    | (some newContent, al) => (newContent, al)
    | (none, al) => (content, al)
  else (content, [])

/-- Lines 320-354 of `sendMessage`, after the guard and the rewrite: create a
conversation when `convId` is null/empty or `leafNodeId` is null; append the
user node (the un-awaited `appendMsg` rejection is unobserved); run
`generateMessage` and convert a thrown error into `false`. -/
def sendCore (s : AppState) (convId : Option Str) (leafNodeId : Option Int)
    (content : Str) (extra : Option (List MessageExtra)) (env : SendEnv) :
    Bool × AppState × List Str :=
  let created :=
    if convId.getD [] = [] ∨ leafNodeId = none then
      let created2 := createConversation s (content.take 256) env.convClock
      (created2.1, created2.2.id, created2.2.currNode)
    else (s, convId.getD [], leafNodeId.getD (-1))
  let s2 := created.1
  let cid := created.2.1
  let leaf := created.2.2
  let currMsgId := env.sendClock
  let userMsg : Message :=
    { id := currMsgId, timestamp := env.sendClock, type := MsgType.text, convId := cid,
      role := Role.user, content := some content, extra := extra,
      parent := leaf, children := [] }
  let s3 := (appendMsg s2 userMsg leaf).getD s2
  let gen := generateMessage s3 cid currMsgId env.genClock env.showTokensPerSecond env.out
  (gen.2.1.isNone, gen.1, gen.2.2)

/-- `sendMessage` from app.context.tsx. Returns the boolean result, the final
state and the surfaced alert messages. -/
def sendMessage (s : AppState) (convId : Option Str) (leafNodeId : Option Int)
    (content : Str) (extra : Option (List MessageExtra)) (env : SendEnv) :
    Bool × AppState × List Str :=
  if isGenerating s (convId.getD []) = true ∨ trimChars content = [] then (false, s, [])
  else
    let rew := ragRewrite env.ragResp content
    let core := sendCore s convId leafNodeId rew.1 extra env
    (core.1, core.2.1, rew.2 ++ core.2.2)

/-- `stopGenerating`: clears the pending entry; `aborts[convId]?.abort()` only
signals the in-flight stream (modelled by that run's `StreamTerm.aborted`) and
does not change the stored maps. -/
def stopGenerating (s : AppState) (convId : Str) : AppState :=
  setPending s convId none

/-- `replaceMessageAndGenerate` from app.context.tsx. -/
def replaceMessageAndGenerate (s : AppState) (convId : Str) (parentNodeId : Int)
    (content : Option Str) (extra : Option (List MessageExtra)) (env : SendEnv) :
    AppState × Option Str × List Str :=
  if isGenerating s convId then (s, none, [])
  else
    let stepped :=
      match content with
      | some c =>
        let userMsg : Message :=
          { id := env.sendClock, timestamp := env.sendClock, type := MsgType.text,
            convId := convId, role := Role.user, content := some c, extra := extra,
            parent := parentNodeId, children := [] }
        ((appendMsg s userMsg parentNodeId).getD s, env.sendClock)
      | none => (s, parentNodeId)
    generateMessage stepped.1 convId stepped.2 env.genClock env.showTokensPerSecond env.out

/-- The inputs of one full `sendMessage` invocation. -/
structure SendRun where
  convId : Option Str
  leafNodeId : Option Int
  content : Str
  extra : Option (List MessageExtra) := none
  env : SendEnv
deriving DecidableEq

/-- A sequence of complete `sendMessage` runs (each run finishes - success,
failure or cancellation - before the next starts; a second send for the same
conversation while one is pending is rejected by the guard, not queued). -/
def runSends (s : AppState) : List SendRun → AppState
  | [] => s
  | r :: rest => runSends (sendMessage s r.convId r.leafNodeId r.content r.extra r.env).2.1 rest

/-- The ordering constraints on the wall-clock readings of a sequence of send
runs: each run's clocks come after `bound` (every id already present), the
conversation-creation reading precedes the user-message reading, which does
not exceed the generateMessage reading; the next run starts strictly after the
pending id `genClock + 1` of this run. -/
def ClocksOrdered (bound : Int) : List SendRun → Prop
  | [] => True
  | r :: rest =>
    bound < r.env.convClock ∧ r.env.convClock < r.env.sendClock ∧
    r.env.sendClock ≤ r.env.genClock ∧ ClocksOrdered (r.env.genClock + 1) rest

/- ===== ChatScreen.tsx: branch resolution for display ===== -/

/-- `MessageDisplay` from ChatScreen.tsx. -/
structure MessageDisplay where
  msg : Message
  siblingLeafNodeIds : List Int
  siblingCurrIdx : Int
deriving DecidableEq

/-- The `nodeMap` built by `for (const msg of msgs) nodeMap.set(msg.id, msg)`:
a later entry with the same id overwrites an earlier one. -/
def nodeFind (msgs : List Message) (i : Int) : Option Message :=
  match msgs with
  | [] => none
  | q :: rest =>
    match nodeFind rest i with
    | some r => some r
    | none => if q.id = i then some q else none

/-- The `while (currNode)` loop of `findLeafNode`, with explicit fuel (the
source loop does not terminate on cyclic child links). -/
def findLeafLoop (m : Int → Option Message) : Option Message → Nat → Option Message
  | none, _ => none
  | some n, 0 => some n
  | some n, fuel + 1 =>
    if n.children = [] then some n
    else findLeafLoop m (m (n.children.getLastD (-1))) fuel

/-- `findLeafNode` from ChatScreen.tsx: follow the last child until a node
with no children; `-1` when the start (or a followed child) is missing. -/
def findLeafNode (m : Int → Option Message) (msgId : Int) (fuel : Nat) : Int :=
  match findLeafLoop m (m msgId) fuel with
  | some n => n.id
  | none => -1

/-- JS `Array.prototype.indexOf`: first index, `-1` when absent. -/
def indexOfTS (l : List Int) (x : Int) : Int :=
  match l with
  | [] => -1
  | a :: rest =>
    if a = x then 0
    else
      let r := indexOfTS rest x
      if r = -1 then -1 else r + 1

/-- The leaf-to-root walk of the branch resolver (spec 4.2 step 2), with fuel
against cyclic parent links: collect nodes following `parent` until a missing
node ends the walk. -/
def walkUp (m : Int → Option Message) : Option Message → Nat → List Message
  | _, 0 => []
  | none, _ => []
  | some n, fuel + 1 => n :: walkUp m (m n.parent) fuel

/-- Modelled from the spec: `StorageUtils.filterByLeafNodeId` is in the storage
module, which is not under src/. Spec 4.2 steps 1-2 and edge cases: a sentinel
leaf id (-1) is resolved by following last children from the root; the path is
the leaf-to-root walk reversed; a leaf id referring to a non-existent node
resolves to an empty sequence; root nodes are dropped unless `includeRoot`. -/
def filterByLeafNodeId (msgs : List Message) (leafNodeId : Int) (includeRoot : Bool)
    (fuel : Nat) : List Message :=
  let m := nodeFind msgs
  let resolved :=
    if leafNodeId = -1 then
      match msgs.find? (fun x => x.type == MsgType.root) with
      | some r => findLeafNode m r.id fuel
      | none => -1
    else leafNodeId
  let path := (walkUp m (m resolved) fuel).reverse
  if includeRoot then path else path.filter (fun x => !(x.type == MsgType.root))

/-- The `for (const msg of currNodes)` loop of `getListMessageDisplay`: skip a
node whose parent is not in the node map, exclude root nodes, and compute the
sibling leaf ids and the sibling index from the parent's children. -/
def displayEntries (m : Int → Option Message) (fuel : Nat) : List Message → List MessageDisplay
  | [] => []
  | msg :: rest =>
    match m msg.parent with
    | none => displayEntries m fuel rest
    | some parentNode =>
      if msg.type ≠ MsgType.root then
        { msg := msg,
          siblingLeafNodeIds := parentNode.children.map (fun c => findLeafNode m c fuel),
          siblingCurrIdx := indexOfTS parentNode.children msg.id } :: displayEntries m fuel rest
      else displayEntries m fuel rest

/-- `getListMessageDisplay` from ChatScreen.tsx. -/
def getListMessageDisplay (msgs : List Message) (leafNodeId : Int) (fuel : Nat) :
    List MessageDisplay :=
  displayEntries (nodeFind msgs) fuel (filterByLeafNodeId msgs leafNodeId true fuel)

/-- Specification of the last-child descent: `LeafResult m a r` holds when
starting from id `a` and repeatedly following the last child, the walk ends at
a node with no children whose id is `r`, or at a missing id with `r = -1`. -/
inductive LeafResult (m : Int → Option Message) : Int → Int → Prop where
  | missing (a : Int) : m a = none → LeafResult m a (-1)
  | leaf (a : Int) (n : Message) : m a = some n → n.children = [] → LeafResult m a n.id
  | step (a : Int) (n : Message) (r : Int) : m a = some n → n.children ≠ [] →
      LeafResult m (n.children.getLastD (-1)) r → LeafResult m a r

/- ===== basic lemmas about the state setters ===== -/

theorem setPending_msgs (s : AppState) (c : Str) (p : Option Message) :
    (setPending s c p).msgs = s.msgs := by
  cases p <;> rfl

theorem setPending_convs (s : AppState) (c : Str) (p : Option Message) :
    (setPending s c p).convs = s.convs := by
  cases p <;> rfl

theorem setAbort_msgs (s : AppState) (c : Str) (b : Bool) :
    (setAbort s c b).msgs = s.msgs := by
  cases b <;> rfl

theorem setAbort_convs (s : AppState) (c : Str) (b : Bool) :
    (setAbort s c b).convs = s.convs := by
  cases b <;> rfl

theorem setAbort_pending (s : AppState) (c : Str) (b : Bool) :
    (setAbort s c b).pending = s.pending := by
  cases b <;> rfl

theorem lookup_filter_ne (l : List (Str × Message)) (c : Str) :
    (l.filter (fun kv => !(kv.1 == c))).lookup c = none := by
  induction l with
  | nil => rfl
  | cons kv rest ih =>
    rw [List.filter_cons]
    by_cases h : kv.1 = c
    · rw [if_neg (by simp [h])]
      exact ih
    · have hb : (c == kv.1) = false := by
        simp only [beq_eq_false_iff_ne, ne_eq]
        exact fun e => h e.symm
      rw [if_pos (by simp [h])]
      simp only [List.lookup, hb]
      exact ih

theorem isGenerating_setPending_none (s : AppState) (c : Str) :
    isGenerating (setPending s c none) c = false := by
  simp [isGenerating, setPending, lookup_filter_ne]

theorem isGenerating_setAbort (s : AppState) (c d : Str) (b : Bool) :
    isGenerating (setAbort s c b) d = isGenerating s d := by
  simp [isGenerating, setAbort_pending]

theorem getOneConversation_setPending (s : AppState) (c : Str) (p : Option Message) (d : Str) :
    getOneConversation (setPending s c p) d = getOneConversation s d := by
  simp [getOneConversation, setPending_convs]

/- ===== lemmas about the chunk-consumption loop ===== -/

theorem stepPending_id (tps : Bool) (pm : Message) (c : Chunk) :
    (stepPending tps pm c).id = pm.id := by
  unfold stepPending
  cases c.content <;> cases c.timings <;> dsimp <;> (try split) <;> (try split) <;> rfl

theorem stepPending_role (tps : Bool) (pm : Message) (c : Chunk) :
    (stepPending tps pm c).role = pm.role := by
  unfold stepPending
  cases c.content <;> cases c.timings <;> dsimp <;> (try split) <;> (try split) <;> rfl

theorem stepPending_parent (tps : Bool) (pm : Message) (c : Chunk) :
    (stepPending tps pm c).parent = pm.parent := by
  unfold stepPending
  cases c.content <;> cases c.timings <;> dsimp <;> (try split) <;> (try split) <;> rfl

theorem stepPending_convId (tps : Bool) (pm : Message) (c : Chunk) :
    (stepPending tps pm c).convId = pm.convId := by
  unfold stepPending
  cases c.content <;> cases c.timings <;> dsimp <;> (try split) <;> (try split) <;> rfl

theorem stepPending_timestamp (tps : Bool) (pm : Message) (c : Chunk) :
    (stepPending tps pm c).timestamp = pm.timestamp := by
  unfold stepPending
  cases c.content <;> cases c.timings <;> dsimp <;> (try split) <;> (try split) <;> rfl

theorem stepPending_type (tps : Bool) (pm : Message) (c : Chunk) :
    (stepPending tps pm c).type = pm.type := by
  unfold stepPending
  cases c.content <;> cases c.timings <;> dsimp <;> (try split) <;> (try split) <;> rfl

theorem stepPending_children (tps : Bool) (pm : Message) (c : Chunk) :
    (stepPending tps pm c).children = pm.children := by
  unfold stepPending
  cases c.content <;> cases c.timings <;> dsimp <;> (try split) <;> (try split) <;> rfl

/-- The content evolution of the pending message along the loop. -/
def accContent : Option Str → List Chunk → Option Str
  | acc, [] => acc
  | acc, c :: rest =>
    accContent
      (match c.content with
       | some t => if t = [] then acc else some (acc.getD [] ++ t)
       | none => acc) rest

theorem stepPending_content (tps : Bool) (pm : Message) (c : Chunk) :
    (stepPending tps pm c).content =
      (match c.content with
       | some t => if t = [] then pm.content else some (pm.content.getD [] ++ t)
       | none => pm.content) := by
  unfold stepPending
  cases c.content <;> cases c.timings <;> dsimp <;> (try split) <;> (try split) <;> rfl

theorem foldl_stepPending_content (tps : Bool) :
    ∀ (chunks : List Chunk) (pm : Message),
      (List.foldl (stepPending tps) pm chunks).content = accContent pm.content chunks := by
  intro chunks
  induction chunks with
  | nil => intro pm; rfl
  | cons c rest ih =>
    intro pm
    rw [List.foldl_cons, ih, accContent, stepPending_content]

theorem foldl_stepPending_id (tps : Bool) :
    ∀ (chunks : List Chunk) (pm : Message),
      (List.foldl (stepPending tps) pm chunks).id = pm.id := by
  intro chunks
  induction chunks with
  | nil => intro pm; rfl
  | cons c rest ih => intro pm; rw [List.foldl_cons, ih, stepPending_id]

theorem foldl_stepPending_role (tps : Bool) :
    ∀ (chunks : List Chunk) (pm : Message),
      (List.foldl (stepPending tps) pm chunks).role = pm.role := by
  intro chunks
  induction chunks with
  | nil => intro pm; rfl
  | cons c rest ih => intro pm; rw [List.foldl_cons, ih, stepPending_role]

theorem foldl_stepPending_parent (tps : Bool) :
    ∀ (chunks : List Chunk) (pm : Message),
      (List.foldl (stepPending tps) pm chunks).parent = pm.parent := by
  intro chunks
  induction chunks with
  | nil => intro pm; rfl
  | cons c rest ih => intro pm; rw [List.foldl_cons, ih, stepPending_parent]

theorem foldl_stepPending_convId (tps : Bool) :
    ∀ (chunks : List Chunk) (pm : Message),
      (List.foldl (stepPending tps) pm chunks).convId = pm.convId := by
  intro chunks
  induction chunks with
  | nil => intro pm; rfl
  | cons c rest ih => intro pm; rw [List.foldl_cons, ih, stepPending_convId]

theorem consumeChunks_state (cid : Str) (tps : Bool) :
    ∀ (chunks : List Chunk) (pm : Message) (s : AppState),
      ((consumeChunks cid tps chunks pm s).1).msgs = s.msgs ∧
      ((consumeChunks cid tps chunks pm s).1).convs = s.convs := by
  intro chunks
  induction chunks with
  | nil => intro pm s; exact ⟨rfl, rfl⟩
  | cons c rest ih =>
    intro pm s
    unfold consumeChunks
    cases hc : c.error with
    | some e => exact ⟨rfl, rfl⟩
    | none =>
      dsimp
      refine ⟨?_, ?_⟩
      · rw [(ih _ _).1, setPending_msgs]
      · rw [(ih _ _).2, setPending_convs]

theorem consumeChunks_ok (cid : Str) (tps : Bool) :
    ∀ (chunks : List Chunk) (pm : Message) (s : AppState),
      (∀ c ∈ chunks, c.error = none) →
      (consumeChunks cid tps chunks pm s).2 = (List.foldl (stepPending tps) pm chunks, none) := by
  intro chunks
  induction chunks with
  | nil => intro pm s _; rfl
  | cons c rest ih =>
    intro pm s h
    have hc : c.error = none := h c (by simp)
    unfold consumeChunks
    rw [hc]
    dsimp
    rw [ih _ _ (fun d hd => h d (by simp [hd]))]

/-- The concatenation, in stream order, of the non-empty `delta.content`
fields of a chunk list (the spec-side description of the accumulated text). -/
def deltaConcat (chunks : List Chunk) : Str :=
  ((chunks.filterMap Chunk.content).filter (fun t => !(t == []))).flatten

theorem flatten_filter_ne_nil (l : List Str) :
    (l.filter (fun t => !(t == []))).flatten = l.flatten := by
  induction l with
  | nil => rfl
  | cons t rest ih =>
    rw [List.filter_cons]
    by_cases h : t = []
    · rw [if_neg (by simp [h]), ih, h, List.flatten_cons, List.nil_append]
    · rw [if_pos (by simp [h]), List.flatten_cons, List.flatten_cons, ih]

theorem deltaConcat_eq (chunks : List Chunk) :
    deltaConcat chunks = (chunks.filterMap Chunk.content).flatten := by
  rw [deltaConcat, flatten_filter_ne_nil]

theorem accContent_some (a : Str) :
    ∀ chunks : List Chunk,
      accContent (some a) chunks = some (a ++ (chunks.filterMap Chunk.content).flatten) := by
  intro chunks
  induction chunks generalizing a with
  | nil => simp [accContent]
  | cons c rest ih =>
    rw [accContent]
    cases hc : c.content with
    | none => simp [hc, ih]
    | some t =>
      by_cases ht : t = []
      · simp [hc, ht, ih]
      · simp only [hc, if_neg ht, Option.getD_some, ih]
        rw [List.filterMap_cons_some hc, List.flatten_cons, List.append_assoc]

theorem accContent_none (chunks : List Chunk) :
    accContent none chunks =
      if (chunks.filterMap Chunk.content).flatten = [] then none
      else some ((chunks.filterMap Chunk.content).flatten) := by
  induction chunks with
  | nil => simp [accContent]
  | cons c rest ih =>
    rw [accContent]
    cases hc : c.content with
    | none =>
      simp only [hc]
      rw [List.filterMap_cons_none hc]
      exact ih
    | some t =>
      by_cases ht : t = []
      · simp only [hc, if_pos ht]
        rw [List.filterMap_cons_some hc, ht, List.flatten_cons, List.nil_append]
        exact ih
      · simp only [hc, if_neg ht, Option.getD_none]
        rw [accContent_some, List.filterMap_cons_some hc, List.flatten_cons]
        have hne : t ++ (rest.filterMap Chunk.content).flatten ≠ [] := by
          simp [ht]
        rw [if_neg hne, List.nil_append]

/- ===== lemmas about appendMsg and getOneConversation ===== -/

theorem appendMsg_some (s : AppState) (node : Message) (parentId : Int) (s2 : AppState)
    (h : appendMsg s node parentId = some s2) :
    s2.msgs = (s.msgs.map (fun q =>
        if q.id == parentId && q.convId == node.convId then
          { q with children := q.children ++ [node.id] }
        else q)) ++ [{ node with parent := parentId }] ∧
    s2.convs = s.convs.map (fun c =>
        if c.id == node.convId then
          { c with currNode := node.id, lastModified := node.timestamp }
        else c) ∧
    s2.pending = s.pending ∧ s2.aborts = s.aborts := by
  unfold appendMsg at h
  split at h
  · exact absurd h (by simp)
  · cases h
    exact ⟨rfl, rfl, rfl, rfl⟩

theorem appendMsg_isSome_iff (s : AppState) (node : Message) (parentId : Int) :
    (appendMsg s node parentId).isSome = true ↔
      ∃ q ∈ s.msgs, q.id = parentId ∧ q.convId = node.convId := by
  unfold appendMsg
  constructor
  · intro h
    split at h
    · simp at h
    · next q hq =>
      have hpred := List.find?_some hq
      rw [Bool.and_eq_true] at hpred
      exact ⟨q, List.mem_of_find?_eq_some hq, eq_of_beq hpred.1, eq_of_beq hpred.2⟩
  · rintro ⟨q, hmem, hid, hconv⟩
    split
    · next hnone =>
      have := List.find?_eq_none.1 hnone q hmem
      simp [hid, hconv] at this
    · simp

theorem appendMsg_none_iff (s : AppState) (node : Message) (parentId : Int) :
    appendMsg s node parentId = none ↔
      ¬ ∃ q ∈ s.msgs, q.id = parentId ∧ q.convId = node.convId := by
  rw [← appendMsg_isSome_iff]
  cases appendMsg s node parentId <;> simp

theorem appendMsg_msgs_ids (s : AppState) (node : Message) (parentId : Int) (s2 : AppState)
    (h : appendMsg s node parentId = some s2) :
    s2.msgs.map Message.id = s.msgs.map Message.id ++ [node.id] := by
  rw [(appendMsg_some s node parentId s2 h).1]
  rw [List.map_append, List.map_map]
  congr 1
  apply List.map_congr_left
  intro q _
  simp only [Function.comp_apply]
  split <;> rfl

theorem appendMsg_conv_pairs (s : AppState) (node : Message) (parentId : Int) (s2 : AppState)
    (h : appendMsg s node parentId = some s2) :
    s2.convs.map (fun c => (c.id, c.name)) = s.convs.map (fun c => (c.id, c.name)) := by
  rw [(appendMsg_some s node parentId s2 h).2.1, List.map_map]
  apply List.map_congr_left
  intro q _
  simp only [Function.comp_apply]
  split <;> rfl

theorem appendMsg_getLast (s : AppState) (node : Message) (parentId : Int) (s2 : AppState)
    (h : appendMsg s node parentId = some s2) :
    s2.msgs.getLast? = some { node with parent := parentId } := by
  rw [(appendMsg_some s node parentId s2 h).1]
  simp

theorem appendMsg_mem (s : AppState) (node : Message) (parentId : Int) (s2 : AppState)
    (h : appendMsg s node parentId = some s2) (q : Message) (hq : q ∈ s.msgs) :
    ∃ q2 ∈ s2.msgs, q2.id = q.id ∧ q2.convId = q.convId ∧ q2.role = q.role ∧
      q2.content = q.content := by
  rw [(appendMsg_some s node parentId s2 h).1]
  refine ⟨_, List.mem_append_left _ (List.mem_map_of_mem _ hq), ?_⟩
  split <;> exact ⟨rfl, rfl, rfl, rfl⟩

theorem appendMsg_getOneConversation (s : AppState) (node : Message) (parentId : Int)
    (s2 : AppState) (h : appendMsg s node parentId = some s2) (cid : Str) :
    (getOneConversation s2 cid).isSome = (getOneConversation s cid).isSome := by
  unfold getOneConversation
  rw [(appendMsg_some s node parentId s2 h).2.1]
  rw [List.find?_map]
  have hp : ((fun c : Conversation => c.id == cid) ∘ (fun c : Conversation =>
      if c.id == node.convId then
        { c with currNode := node.id, lastModified := node.timestamp }
      else c)) = (fun c : Conversation => c.id == cid) := by
    funext c
    simp only [Function.comp_apply]
    split <;> rfl
  rw [hp]
  cases List.find? (fun c => c.id == cid) s.convs <;> rfl

theorem consumeChunks_pm_id (cid : Str) (tps : Bool) :
    ∀ (chunks : List Chunk) (pm : Message) (s : AppState),
      ((consumeChunks cid tps chunks pm s).2.1).id = pm.id := by
  intro chunks
  induction chunks with
  | nil => intro pm s; rfl
  | cons c rest ih =>
    intro pm s
    unfold consumeChunks
    cases hc : c.error with
    | some e => rfl
    | none =>
      dsimp
      rw [ih, stepPending_id]

theorem consumeChunks_pm_convId (cid : Str) (tps : Bool) :
    ∀ (chunks : List Chunk) (pm : Message) (s : AppState),
      ((consumeChunks cid tps chunks pm s).2.1).convId = pm.convId := by
  intro chunks
  induction chunks with
  | nil => intro pm s; rfl
  | cons c rest ih =>
    intro pm s
    unfold consumeChunks
    cases hc : c.error with
    | some e => rfl
    | none =>
      dsimp
      rw [ih, stepPending_convId]

theorem consumeChunks_pm_role (cid : Str) (tps : Bool) :
    ∀ (chunks : List Chunk) (pm : Message) (s : AppState),
      ((consumeChunks cid tps chunks pm s).2.1).role = pm.role := by
  intro chunks
  induction chunks with
  | nil => intro pm s; rfl
  | cons c rest ih =>
    intro pm s
    unfold consumeChunks
    cases hc : c.error with
    | some e => rfl
    | none =>
      dsimp
      rw [ih, stepPending_role]

theorem consumeChunks_pm_parent (cid : Str) (tps : Bool) :
    ∀ (chunks : List Chunk) (pm : Message) (s : AppState),
      ((consumeChunks cid tps chunks pm s).2.1).parent = pm.parent := by
  intro chunks
  induction chunks with
  | nil => intro pm s; rfl
  | cons c rest ih =>
    intro pm s
    unfold consumeChunks
    cases hc : c.error with
    | some e => rfl
    | none =>
      dsimp
      rw [ih, stepPending_parent]

theorem consumeChunks_state_eq (cid : Str) (tps : Bool) (chunks : List Chunk)
    (pm : Message) (s : AppState) (s3 : AppState) (pm3 : Message) (e : Option Str)
    (heq : consumeChunks cid tps chunks pm s = (s3, pm3, e)) :
    s3.msgs = s.msgs ∧ s3.convs = s.convs := by
  have h := consumeChunks_state cid tps chunks pm s
  rw [heq] at h
  exact h

theorem consumeChunks_pm_eq (cid : Str) (tps : Bool) (chunks : List Chunk)
    (pm : Message) (s : AppState) (s3 : AppState) (pm3 : Message) (e : Option Str)
    (heq : consumeChunks cid tps chunks pm s = (s3, pm3, e)) :
    pm3.id = pm.id ∧ pm3.convId = pm.convId ∧ pm3.role = pm.role ∧ pm3.parent = pm.parent := by
  have h1 := consumeChunks_pm_id cid tps chunks pm s
  have h2 := consumeChunks_pm_convId cid tps chunks pm s
  have h3 := consumeChunks_pm_role cid tps chunks pm s
  have h4 := consumeChunks_pm_parent cid tps chunks pm s
  rw [heq] at h1 h2 h3 h4
  exact ⟨h1, h2, h3, h4⟩

theorem persistPending_ids (s : AppState) (cid : Str) (leaf : Int) (pm : Message) :
    ∃ l, ((persistPending s cid leaf pm).1).msgs.map Message.id =
      s.msgs.map Message.id ++ l ∧ l.Sublist [pm.id] := by
  unfold persistPending
  split
  · next t heq =>
    split
    · next s2 ha =>
      refine ⟨[pm.id], ?_, List.Sublist.refl _⟩
      rw [setPending_msgs, appendMsg_msgs_ids s pm leaf s2 ha]
    · next ha => exact ⟨[], by simp, List.nil_sublist _⟩
  · exact ⟨[], by simp [setPending_msgs], List.nil_sublist _⟩

theorem persistPending_conv_pairs (s : AppState) (cid : Str) (leaf : Int) (pm : Message) :
    ((persistPending s cid leaf pm).1).convs.map (fun c => (c.id, c.name)) =
      s.convs.map (fun c => (c.id, c.name)) := by
  unfold persistPending
  split
  · next t heq =>
    split
    · next s2 ha =>
      rw [setPending_convs, appendMsg_conv_pairs s pm leaf s2 ha]
    · next ha => rfl
  · rw [setPending_convs]

theorem persistPending_mem (s : AppState) (cid : Str) (leaf : Int) (pm : Message)
    (q : Message) (hq : q ∈ s.msgs) :
    ∃ q2 ∈ ((persistPending s cid leaf pm).1).msgs, q2.id = q.id ∧ q2.convId = q.convId ∧
      q2.role = q.role ∧ q2.content = q.content := by
  unfold persistPending
  split
  · next t heq =>
    split
    · next s2 ha =>
      rw [setPending_msgs]
      exact appendMsg_mem s pm leaf s2 ha q hq
    · next ha => exact ⟨q, hq, rfl, rfl, rfl, rfl⟩
  · rw [setPending_msgs]
    exact ⟨q, hq, rfl, rfl, rfl, rfl⟩

theorem generateMessage_ids (s : AppState) (cid : Str) (leaf : Int) (g : Int) (tps : Bool)
    (out : FetchOutcome) :
    ∃ l, ((generateMessage s cid leaf g tps out).1).msgs.map Message.id =
      s.msgs.map Message.id ++ l ∧ l.Sublist [g + 1] := by
  unfold generateMessage
  split
  · exact ⟨[], by simp, List.nil_sublist _⟩
  · split
    · exact ⟨[], by simp, List.nil_sublist _⟩
    · next cv heqc =>
      dsimp only
      split
      · -- out.ok = true
        split
        · next s3 pmF e heq =>
          refine ⟨[], ?_, List.nil_sublist _⟩
          have hstate := consumeChunks_state_eq _ _ _ _ _ _ _ _ heq
          simp [hstate.1, setPending_msgs, setAbort_msgs]
        · next s3 pmF heq =>
          have hstate := consumeChunks_state_eq _ _ _ _ _ _ _ _ heq
          have hid := (consumeChunks_pm_eq _ _ _ _ _ _ _ _ heq).1
          split
          · refine ⟨[], ?_, List.nil_sublist _⟩
            simp [hstate.1, setPending_msgs, setAbort_msgs]
          · rcases persistPending_ids (setPending s3 cid none) cid leaf pmF with ⟨l, hl, hsub⟩
            refine ⟨l, ?_, by simpa [hid] using hsub⟩
            rw [hl]
            simp [hstate.1, setPending_msgs, setAbort_msgs]
          · rcases persistPending_ids s3 cid leaf pmF with ⟨l, hl, hsub⟩
            refine ⟨l, ?_, by simpa [hid] using hsub⟩
            rw [hl]
            simp [hstate.1, setPending_msgs, setAbort_msgs]
      · -- non-200 status
        refine ⟨[], ?_, List.nil_sublist _⟩
        simp [setPending_msgs, setAbort_msgs]

theorem generateMessage_conv_pairs (s : AppState) (cid : Str) (leaf : Int) (g : Int)
    (tps : Bool) (out : FetchOutcome) :
    ((generateMessage s cid leaf g tps out).1).convs.map (fun c => (c.id, c.name)) =
      s.convs.map (fun c => (c.id, c.name)) := by
  unfold generateMessage
  split
  · rfl
  · split
    · rfl
    · next cv heqc =>
      dsimp only
      split
      · split
        · next s3 pmF e heq =>
          have hstate := consumeChunks_state_eq _ _ _ _ _ _ _ _ heq
          simp [setPending_convs, hstate.2, setAbort_convs]
        · next s3 pmF heq =>
          have hstate := consumeChunks_state_eq _ _ _ _ _ _ _ _ heq
          split
          · simp [setPending_convs, hstate.2, setAbort_convs]
          · rw [persistPending_conv_pairs]
            simp [setPending_convs, hstate.2, setAbort_convs]
          · rw [persistPending_conv_pairs]
            simp [hstate.2, setPending_convs, setAbort_convs]
      · simp [setPending_convs, setAbort_convs]

theorem generateMessage_mem (s : AppState) (cid : Str) (leaf : Int) (g : Int) (tps : Bool)
    (out : FetchOutcome) (q : Message) (hq : q ∈ s.msgs) :
    ∃ q2 ∈ ((generateMessage s cid leaf g tps out).1).msgs, q2.id = q.id ∧
      q2.convId = q.convId ∧ q2.role = q.role ∧ q2.content = q.content := by
  unfold generateMessage
  split
  · exact ⟨q, hq, rfl, rfl, rfl, rfl⟩
  · split
    · exact ⟨q, hq, rfl, rfl, rfl, rfl⟩
    · next cv heqc =>
      dsimp only
      split
      · split
        · next s3 pmF e heq =>
          have hstate := consumeChunks_state_eq _ _ _ _ _ _ _ _ heq
          refine ⟨q, ?_, rfl, rfl, rfl, rfl⟩
          rw [setPending_msgs, hstate.1, setPending_msgs, setAbort_msgs]
          exact hq
        · next s3 pmF heq =>
          have hstate := consumeChunks_state_eq _ _ _ _ _ _ _ _ heq
          have hq3 : q ∈ s3.msgs := by
            rw [hstate.1, setPending_msgs, setAbort_msgs]
            exact hq
          clear hstate
          split
          · exact ⟨q, by rw [setPending_msgs]; exact hq3, rfl, rfl, rfl, rfl⟩
          · exact persistPending_mem _ cid leaf pmF q (by rw [setPending_msgs]; exact hq3)
          · exact persistPending_mem _ cid leaf pmF q hq3
      · refine ⟨q, ?_, rfl, rfl, rfl, rfl⟩
        rw [setPending_msgs, setPending_msgs, setAbort_msgs]
        exact hq

theorem createConversation_msgs_ids (s : AppState) (name : Str) (clock : Int) :
    ((createConversation s name clock).1).msgs.map Message.id =
      s.msgs.map Message.id ++ [clock] := by
  simp [createConversation]

theorem createConversation_conv_pairs (s : AppState) (name : Str) (clock : Int) :
    ((createConversation s name clock).1).convs.map (fun c => (c.id, c.name)) =
      s.convs.map (fun c => (c.id, c.name)) ++ [(str "conv-" ++ intStr clock, name)] := by
  simp [createConversation]

/-- The tail of `sendCore` after the conversation is resolved: append the user
node (unobserved on failure), then generate. -/
theorem appendThenGen_ids (s2 : AppState) (cid : Str) (leaf : Int) (um : Message)
    (mid g : Int) (tps : Bool) (out : FetchOutcome) :
    ∃ l, ((generateMessage ((appendMsg s2 um leaf).getD s2) cid mid g tps out).1).msgs.map
        Message.id = s2.msgs.map Message.id ++ l ∧ l.Sublist [um.id, g + 1] := by
  cases ha : appendMsg s2 um leaf with
  | none =>
    rcases generateMessage_ids s2 cid mid g tps out with ⟨l, hl, hsub⟩
    refine ⟨l, by simpa using hl, ?_⟩
    exact hsub.trans (List.sublist_cons_self _ _)
  | some s4 =>
    rcases generateMessage_ids s4 cid mid g tps out with ⟨l, hl, hsub⟩
    refine ⟨um.id :: l, ?_, ?_⟩
    · simp only [Option.getD_some, hl, appendMsg_msgs_ids s2 um leaf s4 ha]
      simp
    · have h2 : List.Sublist ([um.id] ++ l) ([um.id] ++ [g + 1]) :=
        List.Sublist.append (List.Sublist.refl _) hsub
      exact h2

theorem sendCore_ids (s : AppState) (convId : Option Str) (leafNodeId : Option Int)
    (content : Str) (extra : Option (List MessageExtra)) (env : SendEnv) :
    ∃ l, ((sendCore s convId leafNodeId content extra env).2.1).msgs.map Message.id =
      s.msgs.map Message.id ++ l ∧
      l.Sublist [env.convClock, env.sendClock, env.genClock + 1] := by
  unfold sendCore
  dsimp only
  split
  · -- a new conversation is created
    rcases appendThenGen_ids ((createConversation s (content.take 256) env.convClock).1)
        ((createConversation s (content.take 256) env.convClock).2.id)
        ((createConversation s (content.take 256) env.convClock).2.currNode)
        { id := env.sendClock, timestamp := env.sendClock, type := MsgType.text,
          convId := (createConversation s (content.take 256) env.convClock).2.id,
          role := Role.user, content := some content, extra := extra,
          parent := (createConversation s (content.take 256) env.convClock).2.currNode,
          children := [] }
        env.sendClock env.genClock env.showTokensPerSecond env.out with ⟨l, hl, hsub⟩
    refine ⟨env.convClock :: l, ?_, ?_⟩
    · rw [hl, createConversation_msgs_ids]
      simp
    · have hshape : List.Sublist ([env.convClock] ++ l)
          ([env.convClock] ++ [env.sendClock, env.genClock + 1]) :=
        List.Sublist.append (List.Sublist.refl _) hsub
      exact hshape
  · -- existing conversation and leaf
    dsimp only
    rcases appendThenGen_ids s (convId.getD []) (leafNodeId.getD (-1))
        { id := env.sendClock, timestamp := env.sendClock, type := MsgType.text,
          convId := convId.getD [], role := Role.user, content := some content,
          extra := extra, parent := leafNodeId.getD (-1), children := [] }
        env.sendClock env.genClock env.showTokensPerSecond env.out with ⟨l, hl, hsub⟩
    exact ⟨l, hl, hsub.trans (List.sublist_cons_self _ _)⟩

theorem sendMessage_ids (s : AppState) (convId : Option Str) (leafNodeId : Option Int)
    (content : Str) (extra : Option (List MessageExtra)) (env : SendEnv) :
    ∃ l, ((sendMessage s convId leafNodeId content extra env).2.1).msgs.map Message.id =
      s.msgs.map Message.id ++ l ∧
      l.Sublist [env.convClock, env.sendClock, env.genClock + 1] := by
  unfold sendMessage
  split
  · exact ⟨[], by simp, List.nil_sublist _⟩
  · dsimp only
    exact sendCore_ids s convId leafNodeId _ extra env

theorem chain_step (ids l : List Int) (bound c sc g : Int)
    (hchain : List.Chain' (· < ·) ids) (hbound : ∀ x ∈ ids, x ≤ bound)
    (hsub : l.Sublist [c, sc, g + 1])
    (h1 : bound < c) (h2 : c < sc) (h3 : sc ≤ g) :
    List.Chain' (· < ·) (ids ++ l) ∧ ∀ x ∈ ids ++ l, x ≤ g + 1 := by
  have hchain3 : List.Chain' (· < ·) [c, sc, g + 1] := by
    simp only [List.chain'_cons, List.chain'_singleton, and_true]
    omega
  have hl : List.Chain' (· < ·) l := hchain3.sublist hsub
  have hmem : ∀ y ∈ l, bound < y ∧ y ≤ g + 1 := by
    intro y hy
    have hy3 := hsub.subset hy
    simp only [List.mem_cons, List.mem_singleton, List.not_mem_nil, or_false] at hy3
    rcases hy3 with h | h | h <;> subst h <;> omega
  constructor
  · rw [List.chain'_append]
    refine ⟨hchain, hl, ?_⟩
    intro x hx y hy
    have hxm : x ∈ ids := by
      rcases List.mem_getLast?_eq_getLast hx with ⟨hne, hxe⟩
      rw [hxe]
      exact List.getLast_mem hne
    have hym : y ∈ l := List.mem_of_mem_head? hy
    have hb := hbound x hxm
    have hc := (hmem y hym).1
    omega
  · intro x hx
    rcases List.mem_append.1 hx with h | h
    · have := hbound x h
      omega
    · exact (hmem x h).2

theorem runSends_chain_aux : ∀ (runs : List SendRun) (s : AppState) (bound : Int),
    List.Chain' (· < ·) (s.msgs.map Message.id) →
    (∀ x ∈ s.msgs.map Message.id, x ≤ bound) →
    ClocksOrdered bound runs →
    List.Chain' (· < ·) ((runSends s runs).msgs.map Message.id) := by
  intro runs
  induction runs with
  | nil =>
    intro s bound h _ _
    exact h
  | cons r rest ih =>
    intro s bound hchain hbound hord
    obtain ⟨h1, h2, h3, hrest⟩ := hord
    obtain ⟨l, hl, hsub⟩ := sendMessage_ids s r.convId r.leafNodeId r.content r.extra r.env
    have hstep := chain_step (s.msgs.map Message.id) l bound r.env.convClock r.env.sendClock
      r.env.genClock hchain hbound hsub h1 h2 h3
    rw [runSends]
    apply ih _ (r.env.genClock + 1) ?_ ?_ hrest
    · rw [hl]
      exact hstep.1
    · rw [hl]
      exact hstep.2

theorem consumeChunks_ok_eq (cid : Str) (tps : Bool) (chunks : List Chunk) (pm : Message)
    (s : AppState) (s3 : AppState) (pm3 : Message) (e : Option Str)
    (herr : ∀ c ∈ chunks, c.error = none)
    (heq : consumeChunks cid tps chunks pm s = (s3, pm3, e)) :
    pm3 = List.foldl (stepPending tps) pm chunks ∧ e = none := by
  have h := consumeChunks_ok cid tps chunks pm s herr
  rw [heq] at h
  exact ⟨congrArg Prod.fst h, congrArg Prod.snd h⟩

theorem accContent_empty (chunks : List Chunk)
    (h : ∀ c ∈ chunks, c.content = none ∨ c.content = some []) :
    ∀ acc, accContent acc chunks = acc := by
  induction chunks with
  | nil => intro acc; rfl
  | cons c rest ih =>
    intro acc
    rw [accContent]
    rcases h c (by simp) with hc | hc
    · rw [hc]
      exact ih (fun d hd => h d (by simp [hd])) acc
    · rw [hc]
      simp only [if_pos rfl]
      exact ih (fun d hd => h d (by simp [hd])) acc

/-- A concrete base state for witnesses: one conversation `"c"` holding a root
node (id 1) and a user node (id 2). -/
def baseState : AppState :=
  { convs := [{ id := str "c", lastModified := 0, currNode := 2, name := str "t" }],
    msgs := [
      { id := 1, convId := str "c", type := MsgType.root, timestamp := 1, role := Role.system,
        content := some [], parent := -1, children := [2] },
      { id := 2, convId := str "c", type := MsgType.text, timestamp := 2, role := Role.user,
        content := some (str "hi"), parent := 1, children := [] }],
    pending := [], aborts := [] }

/-- C1 (amended): after `stopGenerating(convId)` the pending entry is cleared,
so `isGenerating(convId)` is false immediately; a generation cancelled before
any non-empty content chunk was received persists no node; but if content
chunks had already been accumulated into the pending message, the cancelled
run does persist the partial assistant node (the post-catch persistence step
of `generateMessage` also runs on the aborted path). -/
theorem c1_stop_midstream_amended :
    (∀ (s : AppState) (convId : Str), isGenerating (stopGenerating s convId) convId = false) ∧
    (∀ (s : AppState) (convId : Str) (leaf g : Int) (tps : Bool) (chunks : List Chunk),
      (∀ c ∈ chunks, c.error = none ∧ (c.content = none ∨ c.content = some [])) →
      ((generateMessage s convId leaf g tps
          { ok := true, chunks := chunks, term := StreamTerm.aborted }).1).msgs = s.msgs) := by
  refine ⟨?_, ?_⟩
  · intro s convId
    unfold stopGenerating
    exact isGenerating_setPending_none s convId
  · intro s convId leaf g tps chunks hch
    unfold generateMessage
    split
    · rfl
    · split
      · rfl
      · next cv heqc =>
        dsimp only
        rw [if_pos rfl]
        split
        · next s3 pmF e heq =>
          rcases consumeChunks_ok_eq _ _ _ _ _ _ _ _ (fun c hc => (hch c hc).1) heq with ⟨_, hne⟩
          simp at hne
        · next s3 pmF heq =>
          rcases consumeChunks_ok_eq _ _ _ _ _ _ _ _ (fun c hc => (hch c hc).1) heq with ⟨hpm, _⟩
          have hstate := consumeChunks_state_eq _ _ _ _ _ _ _ _ heq
          have hcontent : pmF.content = none := by
            rw [hpm, foldl_stepPending_content]
            exact accContent_empty chunks (fun c hc => (hch c hc).2) none
          unfold persistPending
          rw [hcontent]
          dsimp only
          rw [setPending_msgs, setPending_msgs, hstate.1, setPending_msgs, setAbort_msgs]

/-- C1 witness: stopping with no content chunk received leaves the store
unchanged and isGenerating false. -/
theorem c1_stop_midstream_amended_witness :
    isGenerating (stopGenerating baseState (str "c")) (str "c") = false ∧
    ((generateMessage baseState (str "c") 2 10 false
        { ok := true, chunks := [{ content := some [] }, {}],
          term := StreamTerm.aborted }).1).msgs = baseState.msgs :=
  ⟨c1_stop_midstream_amended.1 baseState (str "c"),
   c1_stop_midstream_amended.2 baseState (str "c") 2 10 false
     [{ content := some [] }, {}] (by decide)⟩

/-- C1 counterexample: a generation of conversation `"c"` cancelled (AbortError)
after the chunk `"Hel"` was accumulated DOES persist the partial assistant node
(id 11, content `"Hel"`), refuting the claim that cancellation never persists
a node even when chunks had been accumulated. -/
theorem c1_stop_midstream_counterexample :
    ((generateMessage baseState (str "c") 2 10 false
        { ok := true, chunks := [{ content := some (str "Hel") }],
          term := StreamTerm.aborted }).1).msgs.map (fun m => (m.id, m.role, m.content)) =
      [(1, Role.system, some []), (2, Role.user, some (str "hi")),
       (11, Role.assistant, some (str "Hel"))] := by
  decide

/-- C2 (amended): node ids (user ids read from the send wall clock, pending
assistant ids `generateMessage`-clock + 1, root ids from the creation clock)
are unique and strictly increasing in creation order PROVIDED the wall-clock
readings of successive sends are strictly increasing and each send starts
strictly after the previous run's pending id (at least 2 ms after the previous
generateMessage clock); ids collide when sends share a millisecond. -/
theorem c2_ids_unique_and_increasing (runs : List SendRun) (s : AppState) (bound : Int)
    (hchain : List.Chain' (· < ·) (s.msgs.map Message.id))
    (hbound : ∀ x ∈ s.msgs.map Message.id, x ≤ bound)
    (hord : ClocksOrdered bound runs) :
    List.Chain' (· < ·) ((runSends s runs).msgs.map Message.id) ∧
    ((runSends s runs).msgs.map Message.id).Nodup := by
  have h := runSends_chain_aux runs s bound hchain hbound hord
  refine ⟨h, ?_⟩
  have hp := List.chain'_iff_pairwise.mp h
  exact hp.imp (fun hlt => ne_of_lt hlt)

def c2WitnessRun1 : SendRun :=
  { convId := some (str "c"), leafNodeId := some 2, content := str "a",
    env := { convClock := 3, sendClock := 4, genClock := 4,
             out := { ok := true, chunks := [{ content := some (str "A") }],
                      term := StreamTerm.done } } }

def c2WitnessRun2 : SendRun :=
  { convId := some (str "c"), leafNodeId := some 5, content := str "b",
    env := { convClock := 6, sendClock := 7, genClock := 7,
             out := { ok := true, chunks := [{ content := some (str "B") }],
                      term := StreamTerm.done } } }

/-- C2 witness: two sends whose clock readings respect the required gaps
produce a strictly increasing, duplicate-free id sequence. -/
theorem c2_ids_unique_and_increasing_witness :
    List.Chain' (· < ·) ((runSends baseState [c2WitnessRun1, c2WitnessRun2]).msgs.map
      Message.id) ∧
    ((runSends baseState [c2WitnessRun1, c2WitnessRun2]).msgs.map Message.id).Nodup :=
  c2_ids_unique_and_increasing [c2WitnessRun1, c2WitnessRun2] baseState 2
    (List.chain'_pair.mpr (by decide)) (by decide)
    ⟨by decide, by decide, by decide, by decide, by decide, by decide, trivial⟩

def c2CollideRun1 : SendRun :=
  { convId := some (str "c"), leafNodeId := some 2, content := str "a",
    env := { convClock := 9, sendClock := 10, genClock := 10,
             out := { ok := true, chunks := [{ content := some (str "A") }],
                      term := StreamTerm.done } } }

def c2CollideRun2 : SendRun :=
  { convId := some (str "c"), leafNodeId := some 11, content := str "b",
    env := { convClock := 9, sendClock := 10, genClock := 10,
             out := { ok := true, chunks := [], term := StreamTerm.done } } }

/-- C2 counterexample: two sends within the same wall-clock millisecond (both
read `Date.now() = 10`) both create a user node with id 10, so ids are neither
unique nor strictly increasing: the store's id sequence is [1, 2, 10, 11, 10]. -/
theorem c2_ids_unique_and_increasing_counterexample :
    ((runSends baseState [c2CollideRun1, c2CollideRun2]).msgs.map Message.id) =
      [1, 2, 10, 11, 10] ∧
    ¬ ((runSends baseState [c2CollideRun1, c2CollideRun2]).msgs.map Message.id).Nodup := by
  constructor
  · decide
  · decide

/-- C3: for a stream that completes without error or cancellation, if no chunk
carries non-empty content nothing is persisted; otherwise exactly one node is
appended and the persisted assistant node's content is the left-to-right
concatenation of the non-empty `delta.content` fields of the chunks. -/
theorem c3_persisted_content_is_delta_concat (s : AppState) (cid : Str) (leaf g : Int)
    (tps : Bool) (chunks : List Chunk) (cv : Conversation)
    (hgen : isGenerating s cid = false)
    (hconv : getOneConversation s cid = some cv)
    (herr : ∀ c ∈ chunks, c.error = none)
    (hleaf : ∃ q ∈ s.msgs, q.id = leaf ∧ q.convId = cid) :
    (deltaConcat chunks = [] →
      ((generateMessage s cid leaf g tps
          { ok := true, chunks := chunks, term := StreamTerm.done }).1).msgs = s.msgs ∧
      (generateMessage s cid leaf g tps
          { ok := true, chunks := chunks, term := StreamTerm.done }).2.1 = none) ∧
    (deltaConcat chunks ≠ [] →
      ∃ n, ((generateMessage s cid leaf g tps
            { ok := true, chunks := chunks, term := StreamTerm.done }).1).msgs.getLast? =
          some n ∧
        ((generateMessage s cid leaf g tps
            { ok := true, chunks := chunks, term := StreamTerm.done }).1).msgs.length =
          s.msgs.length + 1 ∧
        n.content = some (deltaConcat chunks) ∧ n.role = Role.assistant ∧
        n.id = g + 1 ∧ n.parent = leaf ∧
        (generateMessage s cid leaf g tps
            { ok := true, chunks := chunks, term := StreamTerm.done }).2.1 = none) := by
  unfold generateMessage
  rw [hgen]
  rw [if_neg (by simp)]
  rw [hconv]
  dsimp only
  rw [if_pos rfl]
  split
  · next s3 pmF e heq =>
    rcases consumeChunks_ok_eq _ _ _ _ _ _ _ _ herr heq with ⟨_, hne⟩
    simp at hne
  · next s3 pmF heq =>
    rcases consumeChunks_ok_eq _ _ _ _ _ _ _ _ herr heq with ⟨hpm, _⟩
    have hstate := consumeChunks_state_eq _ _ _ _ _ _ _ _ heq
    have hcontent : pmF.content = accContent none chunks := by
      rw [hpm, foldl_stepPending_content]
    have hid : pmF.id = g + 1 := by
      rw [hpm, foldl_stepPending_id]
    have hcid2 : pmF.convId = cid := by
      rw [hpm, foldl_stepPending_convId]
    have hrole : pmF.role = Role.assistant := by
      rw [hpm, foldl_stepPending_role]
    have hmsgs3 : s3.msgs = s.msgs := by
      rw [hstate.1, setPending_msgs, setAbort_msgs]
    constructor
    · intro hd
      have hcn : pmF.content = none := by
        rw [hcontent, accContent_none, if_pos (by rw [← deltaConcat_eq]; exact hd)]
      unfold persistPending
      rw [hcn]
      dsimp only
      exact ⟨by rw [setPending_msgs, hmsgs3], rfl⟩
    · intro hd
      have hcs : pmF.content = some (deltaConcat chunks) := by
        rw [hcontent, accContent_none, if_neg (by rw [← deltaConcat_eq]; exact hd),
          ← deltaConcat_eq]
      have happ : (appendMsg s3 pmF leaf).isSome := by
        rw [appendMsg_isSome_iff]
        rcases hleaf with ⟨q, hqm, hqi, hqc⟩
        exact ⟨q, by rw [hmsgs3]; exact hqm, hqi, by rw [hcid2]; exact hqc⟩
      obtain ⟨s4, ha⟩ := Option.isSome_iff_exists.1 happ
      unfold persistPending
      rw [hcs]
      dsimp only
      rw [ha]
      dsimp only
      refine ⟨{ pmF with parent := leaf }, ?_, ?_, ?_, ?_, ?_, ?_, rfl⟩
      · rw [setPending_msgs]
        exact appendMsg_getLast s3 pmF leaf s4 ha
      · rw [setPending_msgs]
        have hlen := congrArg List.length (appendMsg_msgs_ids s3 pmF leaf s4 ha)
        simp only [List.length_map, List.length_append, List.length_cons,
          List.length_nil] at hlen
        rw [hlen, hmsgs3]
      · show pmF.content = _
        exact hcs
      · show pmF.role = _
        exact hrole
      · show pmF.id = _
        exact hid
      · rfl

def c3Chunks : List Chunk :=
  [{ content := some (str "Hel") }, { content := some (str "lo") }]

/-- C3 witness: the stream `"Hel"` then `"lo"` persists exactly one assistant
node whose content is `"Hello"`. -/
theorem c3_persisted_content_is_delta_concat_witness :
    deltaConcat c3Chunks = str "Hello" ∧
    (∃ n, ((generateMessage baseState (str "c") 2 10 false
          { ok := true, chunks := c3Chunks, term := StreamTerm.done }).1).msgs.getLast? =
        some n ∧
      ((generateMessage baseState (str "c") 2 10 false
          { ok := true, chunks := c3Chunks, term := StreamTerm.done }).1).msgs.length =
        baseState.msgs.length + 1 ∧
      n.content = some (deltaConcat c3Chunks) ∧ n.role = Role.assistant ∧
      n.id = 10 + 1 ∧ n.parent = 2 ∧
      (generateMessage baseState (str "c") 2 10 false
          { ok := true, chunks := c3Chunks, term := StreamTerm.done }).2.1 = none) :=
  ⟨by decide,
   (c3_persisted_content_is_delta_concat baseState (str "c") 2 10 false c3Chunks
      { id := str "c", lastModified := 0, currNode := 2, name := str "t" }
      (by decide) (by decide) (by decide) (by decide)).2 (by decide)⟩

theorem persistPending_no_throw (s : AppState) (cid : Str) (leaf : Int) (pm : Message)
    (h : pm.content = none ∨ ∃ q ∈ s.msgs, q.id = leaf ∧ q.convId = pm.convId) :
    (persistPending s cid leaf pm).2.1 = none := by
  unfold persistPending
  cases hc : pm.content with
  | none => rfl
  | some t =>
    dsimp only
    rcases h with h | h
    · rw [hc] at h
      exact absurd h (by simp)
    · have happ : (appendMsg s pm leaf).isSome := (appendMsg_isSome_iff s pm leaf).2 h
      obtain ⟨s4, ha⟩ := Option.isSome_iff_exists.1 happ
      rw [ha]

theorem generateMessage_no_throw (s : AppState) (cid : Str) (leaf g : Int) (tps : Bool)
    (out : FetchOutcome) (cv : Conversation)
    (hconv : getOneConversation s cid = some cv)
    (hok : out.ok = true)
    (hterm : out.term = StreamTerm.aborted ∨ out.term = StreamTerm.done)
    (herr : ∀ c ∈ out.chunks, c.error = none)
    (hleaf : ∃ q ∈ s.msgs, q.id = leaf ∧ q.convId = cid) :
    (generateMessage s cid leaf g tps out).2.1 = none := by
  obtain ⟨ok, errMsg, chunks, term⟩ := out
  dsimp only at hok hterm herr
  subst hok
  unfold generateMessage
  split
  · rfl
  · rw [hconv]
    dsimp only
    rw [if_pos rfl]
    split
    · next s3 pmF e heq =>
      rcases consumeChunks_ok_eq _ _ _ _ _ _ _ _ herr heq with ⟨_, hne⟩
      simp at hne
    · next s3 pmF heq =>
      rcases consumeChunks_ok_eq _ _ _ _ _ _ _ _ herr heq with ⟨hpm, _⟩
      have hstate := consumeChunks_state_eq _ _ _ _ _ _ _ _ heq
      have hcid2 : pmF.convId = cid := by
        rw [hpm, foldl_stepPending_convId]
      have hmsgs3 : s3.msgs = s.msgs := by
        rw [hstate.1, setPending_msgs, setAbort_msgs]
      have hex : ∃ q ∈ s3.msgs, q.id = leaf ∧ q.convId = pmF.convId := by
        rcases hleaf with ⟨q, hqm, hqi, hqc⟩
        exact ⟨q, by rw [hmsgs3]; exact hqm, hqi, by rw [hcid2]; exact hqc⟩
      rcases hterm with ht | ht <;> rw [ht] <;> dsimp only
      · exact persistPending_no_throw _ cid leaf pmF
          (Or.inr (by rw [setPending_msgs]; exact hex))
      · exact persistPending_no_throw _ cid leaf pmF (Or.inr hex)

/-- C8: when the in-flight generation ends with the cancellation signal
(AbortError), `generateMessage` returns normally, so `sendMessage` returns
`true`, not `false`. -/
theorem c8_abort_not_a_failure (s : AppState) (cid : Str) (l : Int) (content : Str)
    (extra : Option (List MessageExtra)) (env : SendEnv) (cv : Conversation)
    (hcid : cid ≠ [])
    (hgen : isGenerating s cid = false)
    (hconv : getOneConversation s cid = some cv)
    (hleaf : ∃ q ∈ s.msgs, q.id = l ∧ q.convId = cid)
    (htrim : trimChars content ≠ [])
    (hok : env.out.ok = true)
    (hterm : env.out.term = StreamTerm.aborted)
    (herr : ∀ c ∈ env.out.chunks, c.error = none) :
    (sendMessage s (some cid) (some l) content extra env).1 = true := by
  unfold sendMessage
  rw [if_neg (by simp [hgen, htrim])]
  dsimp only
  unfold sendCore
  rw [if_neg (by simp [hcid])]
  dsimp only
  simp only [Option.getD_some]
  have hum : (appendMsg s
      { id := env.sendClock, convId := cid, type := MsgType.text,
        timestamp := env.sendClock, role := Role.user,
        content := some (ragRewrite env.ragResp content).1, extra := extra,
        parent := l, children := [] } l).isSome := by
    rw [appendMsg_isSome_iff]
    rcases hleaf with ⟨q, hqm, hqi, hqc⟩
    exact ⟨q, hqm, hqi, hqc⟩
  obtain ⟨s4, ha⟩ := Option.isSome_iff_exists.1 hum
  rw [ha]
  simp only [Option.getD_some]
  have hconv4 : ∃ cv2, getOneConversation s4 cid = some cv2 := by
    have hiso := appendMsg_getOneConversation s _ l s4 ha cid
    rw [hconv] at hiso
    exact Option.isSome_iff_exists.1 (by rw [hiso]; rfl)
  obtain ⟨cv2, hconv4⟩ := hconv4
  have hleaf4 : ∃ q ∈ s4.msgs, q.id = env.sendClock ∧ q.convId = cid := by
    refine ⟨{ id := env.sendClock, convId := cid, type := MsgType.text,
              timestamp := env.sendClock, role := Role.user,
              content := some (ragRewrite env.ragResp content).1, extra := extra,
              parent := l, children := [] }, ?_, rfl, rfl⟩
    rw [(appendMsg_some s _ l s4 ha).1]
    exact List.mem_append_right _ (by simp)
  rw [generateMessage_no_throw s4 cid env.sendClock env.genClock env.showTokensPerSecond
      env.out cv2 hconv4 hok (Or.inl hterm) herr hleaf4]
  rfl

/-- C8 witness: a concrete aborted run returns `true`. -/
theorem c8_abort_not_a_failure_witness :
    (sendMessage baseState (some (str "c")) (some 2) (str "yo") none
      { convClock := 9, sendClock := 10, genClock := 10,
        out := { ok := true, chunks := [{ content := some (str "A") }],
                 term := StreamTerm.aborted } }).1 = true :=
  c8_abort_not_a_failure baseState (str "c") 2 (str "yo") none
    { convClock := 9, sendClock := 10, genClock := 10,
      out := { ok := true, chunks := [{ content := some (str "A") }],
               term := StreamTerm.aborted } }
    { id := str "c", lastModified := 0, currNode := 2, name := str "t" }
    (by decide) (by decide) (by decide) (by decide) (by decide) (by decide) (by decide)
    (by decide)

theorem ragRewrite_no_command (resp : Option (List (List Str))) (content : Str)
    (h1 : startsWithStr content (str "/codebase") = false)
    (h2 : startsWithStr content (str "/products") = false)
    (h3 : startsWithStr content (str "/documentation") = false)
    (h4 : startsWithStr content (str "/medical_records") = false) :
    ragRewrite resp content = (content, []) := by
  unfold ragRewrite
  rw [if_neg (by simp [h1]), if_neg (by simp [h2]), if_neg (by simp [h3]),
    if_neg (by simp [h4])]

/-- C5: `sendMessage` returns `false` and leaves the state untouched (no
conversation created, no node appended, nothing surfaced) whenever a
generation is already pending for the target conversation or the content is
empty after trimming; otherwise it proceeds and appends the user node. -/
theorem c5_send_rejects_or_proceeds (s : AppState) (convId : Option Str)
    (leafNodeId : Option Int) (content : Str) (extra : Option (List MessageExtra))
    (env : SendEnv) :
    (isGenerating s (convId.getD []) = true ∨ trimChars content = [] →
      sendMessage s convId leafNodeId content extra env = (false, s, [])) ∧
    (∀ cid l, isGenerating s cid = false → trimChars content ≠ [] →
      convId = some cid → cid ≠ [] → leafNodeId = some l →
      (∃ q ∈ s.msgs, q.id = l ∧ q.convId = cid) →
      startsWithStr content (str "/codebase") = false →
      startsWithStr content (str "/products") = false →
      startsWithStr content (str "/documentation") = false →
      startsWithStr content (str "/medical_records") = false →
      ∃ q ∈ ((sendMessage s convId leafNodeId content extra env).2.1).msgs,
        q.id = env.sendClock ∧ q.role = Role.user ∧ q.content = some content) := by
  constructor
  · intro h
    unfold sendMessage
    rw [if_pos h]
  · intro cid l hgen htrim hcv hcid hlf hleaf h1 h2 h3 h4
    subst hcv
    subst hlf
    unfold sendMessage
    rw [if_neg (by simp only [Option.getD_some]; simp [hgen, htrim])]
    rw [ragRewrite_no_command env.ragResp content h1 h2 h3 h4]
    dsimp only
    unfold sendCore
    rw [if_neg (by simp [hcid])]
    dsimp only
    simp only [Option.getD_some]
    have hum : (appendMsg s
        { id := env.sendClock, convId := cid, type := MsgType.text,
          timestamp := env.sendClock, role := Role.user,
          content := some content, extra := extra,
          parent := l, children := [] } l).isSome := by
      rw [appendMsg_isSome_iff]
      rcases hleaf with ⟨q, hqm, hqi, hqc⟩
      exact ⟨q, hqm, hqi, hqc⟩
    obtain ⟨s4, ha⟩ := Option.isSome_iff_exists.1 hum
    rw [ha]
    simp only [Option.getD_some]
    have hmem : ∃ q2 ∈ s4.msgs, q2.id = env.sendClock ∧ q2.role = Role.user ∧
        q2.content = some content := by
      rw [(appendMsg_some s _ l s4 ha).1]
      exact ⟨_, List.mem_append_right _ (List.mem_singleton_self _), rfl, rfl, rfl⟩
    rcases hmem with ⟨q0, hq0m, hq0id, hq0role, hq0content⟩
    rcases generateMessage_mem s4 cid env.sendClock env.genClock env.showTokensPerSecond
        env.out q0 hq0m with ⟨q2, hq2m, hq2id, _, hq2role, hq2content⟩
    exact ⟨q2, hq2m, by rw [hq2id, hq0id], by rw [hq2role, hq0role],
      by rw [hq2content, hq0content]⟩

/-- C5 witness: whitespace-only content is rejected with no state change, and
a well-formed send appends the user node. -/
theorem c5_send_rejects_or_proceeds_witness :
    sendMessage baseState (some (str "c")) (some 2) (str "   ") none
      { convClock := 9, sendClock := 10, genClock := 10,
        out := { ok := true, chunks := [], term := StreamTerm.done } } =
      (false, baseState, []) ∧
    (∃ q ∈ ((sendMessage baseState (some (str "c")) (some 2) (str "yo") none
        { convClock := 9, sendClock := 10, genClock := 10,
          out := { ok := true, chunks := [], term := StreamTerm.done } }).2.1).msgs,
      q.id = 10 ∧ q.role = Role.user ∧ q.content = some (str "yo")) :=
  ⟨(c5_send_rejects_or_proceeds baseState (some (str "c")) (some 2) (str "   ") none
      { convClock := 9, sendClock := 10, genClock := 10,
        out := { ok := true, chunks := [], term := StreamTerm.done } }).1
    (Or.inr (by decide)),
   (c5_send_rejects_or_proceeds baseState (some (str "c")) (some 2) (str "yo") none
      { convClock := 9, sendClock := 10, genClock := 10,
        out := { ok := true, chunks := [], term := StreamTerm.done } }).2
    (str "c") 2 (by decide) (by decide) rfl (by decide) rfl (by decide)
    (by decide) (by decide) (by decide) (by decide)⟩

theorem startsWith_eq_take (l pre : Str) (h : startsWithStr l pre = true) :
    l.take pre.length = pre := by
  unfold startsWithStr at h
  exact eq_of_beq h

theorem startsWith_false_of_take_ne (l pre : Str) (h : l.take pre.length ≠ pre) :
    startsWithStr l pre = false := by
  unfold startsWithStr
  simp [h]

/-- Two registered command prefixes never match the same content: if `pre2`
matches then any `pre1` that is not a prefix of `pre2` does not. -/
theorem startsWith_disjoint (content pre1 pre2 : Str)
    (hne : pre2.take pre1.length ≠ pre1)
    (hlen : pre1.length ≤ pre2.length)
    (h : startsWithStr content pre2 = true) :
    startsWithStr content pre1 = false := by
  apply startsWith_false_of_take_ne
  have ht := startsWith_eq_take content pre2 h
  intro hc
  apply hne
  rw [← ht, List.take_take, Nat.min_eq_left hlen]
  exact hc

theorem ragRewrite_fail (content : Str)
    (hpre : startsWithStr content (str "/codebase") = true ∨
            startsWithStr content (str "/products") = true ∨
            startsWithStr content (str "/documentation") = true ∨
            startsWithStr content (str "/medical_records") = true) :
    ragRewrite none content = (content, [ragFailAlert]) := by
  unfold ragRewrite
  rcases hpre with h | h | h | h
  · rw [if_pos h]
    rfl
  · rw [if_neg (by simp [startsWith_disjoint content (str "/codebase") (str "/products")
        (by decide) (by decide) h]), if_pos h]
    rfl
  · rw [if_neg (by simp [startsWith_disjoint content (str "/codebase") (str "/documentation")
        (by decide) (by decide) h]),
      if_neg (by simp [startsWith_disjoint content (str "/products") (str "/documentation")
        (by decide) (by decide) h]), if_pos h]
    rfl
  · rw [if_neg (by simp [startsWith_disjoint content (str "/codebase") (str "/medical_records")
        (by decide) (by decide) h]),
      if_neg (by simp [startsWith_disjoint content (str "/products") (str "/medical_records")
        (by decide) (by decide) h]),
      if_neg (by simp [startsWith_disjoint content (str "/documentation")
        (str "/medical_records") (by decide) (by decide) h]), if_pos h]
    rfl

/-- C6: when the content starts with a registered command prefix and the
content-rewrite collaborator fails, `sendMessage` surfaces the failure alert,
keeps the original content, and still runs the whole send (conversation
creation, user append, generate) exactly as `sendCore` does on the original
content. -/
theorem c6_rag_failure_keeps_content (s : AppState) (convId : Option Str)
    (leafNodeId : Option Int) (content : Str) (extra : Option (List MessageExtra))
    (env : SendEnv)
    (hguard : ¬(isGenerating s (convId.getD []) = true ∨ trimChars content = []))
    (hfail : env.ragResp = none)
    (hpre : startsWithStr content (str "/codebase") = true ∨
            startsWithStr content (str "/products") = true ∨
            startsWithStr content (str "/documentation") = true ∨
            startsWithStr content (str "/medical_records") = true) :
    sendMessage s convId leafNodeId content extra env =
      ((sendCore s convId leafNodeId content extra env).1,
       (sendCore s convId leafNodeId content extra env).2.1,
       ragFailAlert :: (sendCore s convId leafNodeId content extra env).2.2) := by
  unfold sendMessage
  rw [if_neg hguard, hfail, ragRewrite_fail content hpre]
  rfl

/-- C6 witness: a `/codebase` send whose RAG fetch fails proceeds with the
original content and surfaces the alert. -/
theorem c6_rag_failure_keeps_content_witness :
    sendMessage baseState (some (str "c")) (some 2) (str "/codebase what") none
      { ragResp := none, convClock := 9, sendClock := 10, genClock := 10,
        out := { ok := true, chunks := [], term := StreamTerm.done } } =
      ((sendCore baseState (some (str "c")) (some 2) (str "/codebase what") none
        { ragResp := none, convClock := 9, sendClock := 10, genClock := 10,
          out := { ok := true, chunks := [], term := StreamTerm.done } }).1,
       (sendCore baseState (some (str "c")) (some 2) (str "/codebase what") none
        { ragResp := none, convClock := 9, sendClock := 10, genClock := 10,
          out := { ok := true, chunks := [], term := StreamTerm.done } }).2.1,
       ragFailAlert :: (sendCore baseState (some (str "c")) (some 2)
        (str "/codebase what") none
        { ragResp := none, convClock := 9, sendClock := 10, genClock := 10,
          out := { ok := true, chunks := [], term := StreamTerm.done } }).2.2) :=
  c6_rag_failure_keeps_content baseState (some (str "c")) (some 2) (str "/codebase what")
    none
    { ragResp := none, convClock := 9, sendClock := 10, genClock := 10,
      out := { ok := true, chunks := [], term := StreamTerm.done } }
    (by decide) rfl (Or.inl (by decide))

theorem appendMsgGetD_conv_pairs (s : AppState) (um : Message) (leaf : Int) :
    (((appendMsg s um leaf).getD s).convs).map (fun c => (c.id, c.name)) =
      s.convs.map (fun c => (c.id, c.name)) := by
  cases ha : appendMsg s um leaf with
  | none => rfl
  | some s4 =>
    simp only [Option.getD_some]
    exact appendMsg_conv_pairs s um leaf s4 ha

theorem name_from_pairs (convs : List Conversation) (base : List (Str × Str))
    (cidN nameN : Str)
    (h : convs.map (fun c => (c.id, c.name)) = base ++ [(cidN, nameN)]) :
    convs.getLast?.map (fun c => c.name) = some nameN := by
  have hl : (convs.map (fun c => (c.id, c.name))).getLast? = some (cidN, nameN) := by
    rw [h]
    exact List.getLast?_concat _
  rw [List.getLast?_map] at hl
  cases hc : convs.getLast? with
  | none =>
    rw [hc] at hl
    simp at hl
  | some cv =>
    rw [hc] at hl
    simp only [Option.map_some'] at hl
    have h2 := Option.some.inj hl
    have h3 : cv.name = nameN := congrArg Prod.snd h2
    simp only [Option.map_some']
    rw [h3]

/-- The tail of `sendMessage` after the rewrite, for an absent conversation
id: `sendCore` creates the conversation from the first 256 characters of the
content it receives, and neither the user append nor `generateMessage`
changes any conversation's name. -/
theorem sendCore_new_conv_name (s : AppState) (leafNodeId : Option Int) (content2 : Str)
    (extra : Option (List MessageExtra)) (env : SendEnv) :
    ((sendCore s none leafNodeId content2 extra env).2.1).convs.getLast?.map
        (fun c => c.name) = some (content2.take 256) := by
  unfold sendCore
  rw [if_pos (Or.inl (show (none : Option Str).getD [] = [] from rfl))]
  dsimp only
  apply name_from_pairs _ (s.convs.map (fun c => (c.id, c.name)))
    (str "conv-" ++ intStr env.convClock)
  rw [generateMessage_conv_pairs, appendMsgGetD_conv_pairs, createConversation_conv_pairs]

/-- C9: when `sendMessage` is called with an absent conversation id and a
content beginning with any of the four registered command prefixes whose
rewrite succeeds, the new conversation's name is the first 256 characters of
the rewritten content (directive plus retrieved documents, spliced in place of
the command for `/codebase`, `/products` and `/documentation`, prepended for
`/medical_records`), not of the originally typed message, because the rewrite
runs before `createConversation`. -/
theorem c9_conversation_named_after_rewrite (s : AppState) (leafNodeId : Option Int)
    (content : Str) (extra : Option (List MessageExtra)) (env : SendEnv)
    (docs : List (List Str))
    (hgen : isGenerating s [] = false)
    (htrim : trimChars content ≠ [])
    (hrag : env.ragResp = some docs) :
    (startsWithStr content (str "/codebase") = true →
      ((sendMessage s none leafNodeId content extra env).2.1).convs.getLast?.map
          (fun c => c.name) =
        some ((replaceFirst content (str "/codebase")
          (codebaseDirective ++ str "\n\n" ++ List.intercalate (str " ") docs.flatten
            ++ str "\n\n" ++ content)).take 256)) ∧
    (startsWithStr content (str "/products") = true →
      ((sendMessage s none leafNodeId content extra env).2.1).convs.getLast?.map
          (fun c => c.name) =
        some ((replaceFirst content (str "/products")
          (productsDirective ++ str "\n\n" ++ List.intercalate (str " ") docs.flatten
            ++ str "\n\n" ++ content)).take 256)) ∧
    (startsWithStr content (str "/documentation") = true →
      ((sendMessage s none leafNodeId content extra env).2.1).convs.getLast?.map
          (fun c => c.name) =
        some ((replaceFirst content (str "/documentation")
          (documentationDirective ++ str "\n\n" ++ List.intercalate (str " ") docs.flatten
            ++ str "\n\n" ++ content)).take 256)) ∧
    (startsWithStr content (str "/medical_records") = true →
      ((sendMessage s none leafNodeId content extra env).2.1).convs.getLast?.map
          (fun c => c.name) =
        some ((medRecordsDirective ++ str "\n\n" ++ List.intercalate (str " ") docs.flatten
            ++ str "\n\n" ++ content).take 256)) := by
  refine ⟨?_, ?_, ?_, ?_⟩
  · intro hpre
    unfold sendMessage
    rw [if_neg (by simp [hgen, htrim]), hrag]
    have hrw : ragRewrite (some docs) content =
        (replaceFirst content (str "/codebase")
          (codebaseDirective ++ str "\n\n" ++ List.intercalate (str " ") docs.flatten
            ++ str "\n\n" ++ content), []) := by
      unfold ragRewrite
      rw [if_pos hpre]
      rfl
    rw [hrw]
    exact sendCore_new_conv_name s leafNodeId _ extra env
  · intro hpre
    unfold sendMessage
    rw [if_neg (by simp [hgen, htrim]), hrag]
    have hrw : ragRewrite (some docs) content =
        (replaceFirst content (str "/products")
          (productsDirective ++ str "\n\n" ++ List.intercalate (str " ") docs.flatten
            ++ str "\n\n" ++ content), []) := by
      unfold ragRewrite
      rw [if_neg (by simp [startsWith_disjoint content (str "/codebase") (str "/products")
          (by decide) (by decide) hpre]), if_pos hpre]
      rfl
    rw [hrw]
    exact sendCore_new_conv_name s leafNodeId _ extra env
  · intro hpre
    unfold sendMessage
    rw [if_neg (by simp [hgen, htrim]), hrag]
    have hrw : ragRewrite (some docs) content =
        (replaceFirst content (str "/documentation")
          (documentationDirective ++ str "\n\n" ++ List.intercalate (str " ") docs.flatten
            ++ str "\n\n" ++ content), []) := by
      unfold ragRewrite
      rw [if_neg (by simp [startsWith_disjoint content (str "/codebase")
          (str "/documentation") (by decide) (by decide) hpre]),
        if_neg (by simp [startsWith_disjoint content (str "/products")
          (str "/documentation") (by decide) (by decide) hpre]), if_pos hpre]
      rfl
    rw [hrw]
    exact sendCore_new_conv_name s leafNodeId _ extra env
  · intro hpre
    unfold sendMessage
    rw [if_neg (by simp [hgen, htrim]), hrag]
    have hrw : ragRewrite (some docs) content =
        (medRecordsDirective ++ str "\n\n" ++ List.intercalate (str " ") docs.flatten
          ++ str "\n\n" ++ content, []) := by
      unfold ragRewrite
      rw [if_neg (by simp [startsWith_disjoint content (str "/codebase")
          (str "/medical_records") (by decide) (by decide) hpre]),
        if_neg (by simp [startsWith_disjoint content (str "/products")
          (str "/medical_records") (by decide) (by decide) hpre]),
        if_neg (by simp [startsWith_disjoint content (str "/documentation")
          (str "/medical_records") (by decide) (by decide) hpre]), if_pos hpre]
      rfl
    rw [hrw]
    exact sendCore_new_conv_name s leafNodeId _ extra env

def c9Env : SendEnv :=
  { ragResp := some [[str "docA", str "docB"]], convClock := 20, sendClock := 21,
    genClock := 21, out := { ok := true, chunks := [], term := StreamTerm.done } }

/-- C9 witness: a new-conversation `/codebase` send (splice path) and a
`/medical_records` send (prepend path), both with a successful rewrite, name
the conversation from the rewritten content. -/
theorem c9_conversation_named_after_rewrite_witness :
    (((sendMessage baseState none none (str "/codebase hey") none c9Env).2.1).convs.getLast?.map
        (fun c => c.name) =
      some ((replaceFirst (str "/codebase hey") (str "/codebase")
        (codebaseDirective ++ str "\n\n"
          ++ List.intercalate (str " ") ([[str "docA", str "docB"]] : List (List Str)).flatten
          ++ str "\n\n" ++ str "/codebase hey")).take 256)) ∧
    (((sendMessage baseState none none (str "/medical_records x") none c9Env).2.1).convs.getLast?.map
        (fun c => c.name) =
      some ((medRecordsDirective ++ str "\n\n"
          ++ List.intercalate (str " ") ([[str "docA", str "docB"]] : List (List Str)).flatten
          ++ str "\n\n" ++ str "/medical_records x").take 256)) :=
  ⟨(c9_conversation_named_after_rewrite baseState none (str "/codebase hey") none c9Env
      [[str "docA", str "docB"]] (by decide) (by decide) rfl).1 (by decide),
   (c9_conversation_named_after_rewrite baseState none (str "/medical_records x") none c9Env
      [[str "docA", str "docB"]] (by decide) (by decide) rfl).2.2.2 (by decide)⟩

theorem nodeFind_some (msgs : List Message) (i : Int) (n : Message)
    (h : nodeFind msgs i = some n) : n ∈ msgs ∧ n.id = i := by
  induction msgs with
  | nil => simp [nodeFind] at h
  | cons q rest ih =>
    unfold nodeFind at h
    cases hr : nodeFind rest i with
    | some r =>
      rw [hr] at h
      cases h
      rcases ih hr with ⟨hm, hid⟩
      exact ⟨List.mem_cons_of_mem _ hm, hid⟩
    | none =>
      rw [hr] at h
      by_cases hq : q.id = i
      · rw [if_pos hq] at h
        cases h
        exact ⟨List.mem_cons_self _ _, hq⟩
      · rw [if_neg hq] at h
        exact absurd h (by simp)

theorem findLeafNode_spec (m : Int → Option Message) (rank : Int → Nat)
    (hR : ∀ i n, m i = some n → n.children ≠ [] →
      rank (n.children.getLastD (-1)) < rank i) :
    ∀ (fuel : Nat) (start : Int), rank start < fuel →
      LeafResult m start (findLeafNode m start fuel) := by
  intro fuel
  induction fuel with
  | zero =>
    intro start h
    omega
  | succ f ih =>
    intro start hf
    cases hm : m start with
    | none =>
      have hval : findLeafNode m start (f + 1) = -1 := by
        unfold findLeafNode
        rw [hm]
        rfl
      rw [hval]
      exact LeafResult.missing start hm
    | some n =>
      by_cases hc : n.children = []
      · have hval : findLeafNode m start (f + 1) = n.id := by
          unfold findLeafNode
          rw [hm]
          unfold findLeafLoop
          rw [if_pos hc]
        rw [hval]
        exact LeafResult.leaf start n hm hc
      · have hstep : findLeafNode m start (f + 1) =
            findLeafNode m (n.children.getLastD (-1)) f := by
          unfold findLeafNode
          rw [hm]
          rw [show findLeafLoop m (some n) (f + 1) =
              findLeafLoop m (m (n.children.getLastD (-1))) f from by
            simp only [findLeafLoop]
            rw [if_neg hc]]
        rw [hstep]
        have hrank := hR start n hm hc
        exact LeafResult.step start n _ hm hc (ih _ (by omega))

/-- C10: on a node set whose last-child links admit a decreasing rank (no
cycles), and with enough fuel, `findLeafNode` returns, for every starting id,
exactly what the descent specification `LeafResult` describes: the node
reached by repeatedly following the last child until a node with no children,
or -1 when the starting id or a followed child id is missing from the map;
being a total function it never throws. -/
theorem c10_findLeafNode_terminates (msgs : List Message) (rank : Int → Nat)
    (start : Int) (fuel : Nat)
    (hR : ∀ i n, nodeFind msgs i = some n → n.children ≠ [] →
      rank (n.children.getLastD (-1)) < rank i)
    (hfuel : rank start < fuel) :
    LeafResult (nodeFind msgs) start (findLeafNode (nodeFind msgs) start fuel) :=
  findLeafNode_spec (nodeFind msgs) rank hR fuel start hfuel

/-- The branching example from the source docs: root 1 with children 2 and 6,
node 2 with child 3; nodes 3 and 6 are leaves. -/
def exampleMsgs : List Message :=
  [{ id := 1, convId := str "c", type := MsgType.root, timestamp := 1, role := Role.system,
     content := some [], parent := -1, children := [2, 6] },
   { id := 2, convId := str "c", type := MsgType.text, timestamp := 2, role := Role.user,
     content := some (str "m2"), parent := 1, children := [3] },
   { id := 3, convId := str "c", type := MsgType.text, timestamp := 3, role := Role.assistant,
     content := some (str "m3"), parent := 2, children := [] },
   { id := 6, convId := str "c", type := MsgType.text, timestamp := 6, role := Role.user,
     content := some (str "m6"), parent := 1, children := [] }]

def exampleRank : Int → Nat := fun i => if i = 1 then 2 else if i = 2 then 1 else 0

theorem exampleRank_decreasing :
    ∀ i n, nodeFind exampleMsgs i = some n → n.children ≠ [] →
      exampleRank (n.children.getLastD (-1)) < exampleRank i := by
  intro i n h hne
  rcases nodeFind_some exampleMsgs i n h with ⟨hmem, hid⟩
  subst hid
  rcases List.mem_cons.1 hmem with h1 | hmem
  · subst h1
    decide
  rcases List.mem_cons.1 hmem with h1 | hmem
  · subst h1
    decide
  rcases List.mem_cons.1 hmem with h1 | hmem
  · subst h1
    exact absurd rfl hne
  rcases List.mem_cons.1 hmem with h1 | hmem
  · subst h1
    exact absurd rfl hne
  · simp at hmem

/-- C10 witness: the descent from the root of the example tree follows last
children 1 -> 6 and satisfies the descent specification. -/
theorem c10_findLeafNode_terminates_witness :
    LeafResult (nodeFind exampleMsgs) 1 (findLeafNode (nodeFind exampleMsgs) 1 3) :=
  c10_findLeafNode_terminates exampleMsgs exampleRank 1 3 exampleRank_decreasing
    (by decide)

theorem indexOfTS_spec (x : Int) :
    ∀ (l : List Int), x ∈ l →
      0 ≤ indexOfTS l x ∧ l.get? (indexOfTS l x).toNat = some x := by
  intro l
  induction l with
  | nil => intro h; simp at h
  | cons a rest ih =>
    intro h
    unfold indexOfTS
    by_cases ha : a = x
    · rw [if_pos ha]
      exact ⟨le_refl 0, by simp [ha]⟩
    · rw [if_neg ha]
      have hx : x ∈ rest := by
        rcases List.mem_cons.1 h with h1 | h1
        · exact absurd h1.symm ha
        · exact h1
      rcases ih hx with ⟨h0, hg⟩
      dsimp only
      rw [if_neg (by omega)]
      refine ⟨by omega, ?_⟩
      have ht : (indexOfTS rest x + 1).toNat = (indexOfTS rest x).toNat + 1 := by omega
      rw [ht]
      simpa using hg

theorem forall₂_map_self {α β : Type} (R : α → β → Prop) (f : α → β) (l : List α)
    (h : ∀ c ∈ l, R c (f c)) : List.Forall₂ R l (l.map f) := by
  induction l with
  | nil => simp
  | cons a rest ih =>
    exact List.Forall₂.cons (h a (by simp)) (ih (fun c hc => h c (by simp [hc])))

theorem displayEntries_spec (m : Int → Option Message) (fuel : Nat) :
    ∀ (l : List Message) (e : MessageDisplay), e ∈ displayEntries m fuel l →
      e.msg.type ≠ MsgType.root ∧ (m e.msg.parent).isSome = true ∧ e.msg ∈ l := by
  intro l
  induction l with
  | nil =>
    intro e he
    simp [displayEntries] at he
  | cons msg rest ih =>
    intro e he
    unfold displayEntries at he
    cases hp : m msg.parent with
    | none =>
      rw [hp] at he
      rcases ih e he with ⟨h1, h2, h3⟩
      exact ⟨h1, h2, List.mem_cons_of_mem _ h3⟩
    | some p =>
      rw [hp] at he
      dsimp only at he
      by_cases hroot : msg.type ≠ MsgType.root
      · rw [if_pos hroot] at he
        rcases List.mem_cons.1 he with h1 | h1
        · subst h1
          exact ⟨hroot, by rw [hp]; rfl, List.mem_cons_self _ _⟩
        · rcases ih e h1 with ⟨h2, h3, h4⟩
          exact ⟨h2, h3, List.mem_cons_of_mem _ h4⟩
      · rw [if_neg hroot] at he
        rcases ih e he with ⟨h1, h2, h3⟩
        exact ⟨h1, h2, List.mem_cons_of_mem _ h3⟩

/-- C7: every produced display entry is a non-root node whose parent is
present in the node map (so root nodes are excluded and orphaned nodes are
skipped, never an error), and lies on the resolved path. -/
theorem c7_roots_excluded_orphans_skipped (msgs : List Message) (leafNodeId : Int)
    (fuel : Nat) (e : MessageDisplay)
    (he : e ∈ getListMessageDisplay msgs leafNodeId fuel) :
    e.msg.type ≠ MsgType.root ∧ (nodeFind msgs e.msg.parent).isSome = true ∧
      e.msg ∈ filterByLeafNodeId msgs leafNodeId true fuel :=
  displayEntries_spec (nodeFind msgs) fuel _ e he

def c7Entry : MessageDisplay :=
  { msg := { id := 2, convId := str "c", type := MsgType.text, timestamp := 2,
             role := Role.user, content := some (str "m2"), parent := 1,
             children := [3] },
    siblingLeafNodeIds := [3, 6], siblingCurrIdx := 0 }

/-- C7 witness: a concrete entry of the example display list is non-root with
a present parent. -/
theorem c7_roots_excluded_orphans_skipped_witness :
    c7Entry.msg.type ≠ MsgType.root ∧
    (nodeFind exampleMsgs c7Entry.msg.parent).isSome = true ∧
    c7Entry.msg ∈ filterByLeafNodeId exampleMsgs 3 true 10 :=
  c7_roots_excluded_orphans_skipped exampleMsgs 3 10 c7Entry (by decide)

theorem displayEntries_sibling_spec (m : Int → Option Message) (fuel : Nat)
    (rank : Int → Nat)
    (hR : ∀ i n, m i = some n → n.children ≠ [] →
      rank (n.children.getLastD (-1)) < rank i)
    (hfuel : ∀ i, rank i < fuel) :
    ∀ (l : List Message) (e : MessageDisplay), e ∈ displayEntries m fuel l →
      ∃ p, m e.msg.parent = some p ∧
        List.Forall₂ (fun c r => LeafResult m c r) p.children e.siblingLeafNodeIds ∧
        e.siblingCurrIdx = indexOfTS p.children e.msg.id ∧
        (e.msg.id ∈ p.children → 0 ≤ e.siblingCurrIdx ∧
          p.children.get? e.siblingCurrIdx.toNat = some e.msg.id) := by
  intro l
  induction l with
  | nil =>
    intro e he
    simp [displayEntries] at he
  | cons msg rest ih =>
    intro e he
    unfold displayEntries at he
    cases hp : m msg.parent with
    | none =>
      rw [hp] at he
      exact ih e he
    | some p =>
      rw [hp] at he
      dsimp only at he
      by_cases hroot : msg.type ≠ MsgType.root
      · rw [if_pos hroot] at he
        rcases List.mem_cons.1 he with h1 | h1
        · subst h1
          refine ⟨p, hp, ?_, rfl, ?_⟩
          · exact forall₂_map_self _ _ _
              (fun c _ => findLeafNode_spec m rank hR fuel c (hfuel c))
          · intro hmem
            exact indexOfTS_spec msg.id p.children hmem
        · exact ih e h1
      · rw [if_neg hroot] at he
        exact ih e he

theorem displayEntries_coverage (m : Int → Option Message) (fuel : Nat) :
    ∀ (l : List Message) (n : Message), n ∈ l → n.type ≠ MsgType.root →
      ∀ p, m n.parent = some p →
      ∃ e ∈ displayEntries m fuel l, e.msg = n := by
  intro l
  induction l with
  | nil =>
    intro n hn
    simp at hn
  | cons msg rest ih =>
    intro n hn hroot p hp
    unfold displayEntries
    rcases List.mem_cons.1 hn with h1 | h1
    · subst h1
      rw [hp]
      dsimp only
      rw [if_pos hroot]
      exact ⟨_, List.mem_cons_self _ _, rfl⟩
    · cases hq : m msg.parent with
      | none =>
        dsimp only
        exact ih n h1 hroot p hp
      | some q =>
        dsimp only
        by_cases hr : msg.type ≠ MsgType.root
        · rw [if_pos hr]
          rcases ih n h1 hroot p hp with ⟨e, hem, heq⟩
          exact ⟨e, List.mem_cons_of_mem _ hem, heq⟩
        · rw [if_neg hr]
          exact ih n h1 hroot p hp

/-- C4: on an acyclic node set (witnessed by a decreasing rank) with enough
fuel, every display entry's `siblingLeafNodeIds` lists, for every child of the
entry's parent in children order (the entry's node included), the leaf reached
by repeatedly following that child's last child (the `LeafResult` descent
specification), and `siblingCurrIdx` is the node's position among the parent's
children; conversely every non-root path node whose parent is present yields
an entry. -/
theorem c4_sibling_leaves_and_index (msgs : List Message) (leafNodeId : Int) (fuel : Nat)
    (rank : Int → Nat)
    (hR : ∀ i n, nodeFind msgs i = some n → n.children ≠ [] →
      rank (n.children.getLastD (-1)) < rank i)
    (hfuel : ∀ i, rank i < fuel) :
    (∀ e ∈ getListMessageDisplay msgs leafNodeId fuel,
      ∃ p, nodeFind msgs e.msg.parent = some p ∧
        List.Forall₂ (fun c r => LeafResult (nodeFind msgs) c r) p.children
          e.siblingLeafNodeIds ∧
        e.siblingCurrIdx = indexOfTS p.children e.msg.id ∧
        (e.msg.id ∈ p.children → 0 ≤ e.siblingCurrIdx ∧
          p.children.get? e.siblingCurrIdx.toNat = some e.msg.id)) ∧
    (∀ n ∈ filterByLeafNodeId msgs leafNodeId true fuel, n.type ≠ MsgType.root →
      ∀ p, nodeFind msgs n.parent = some p →
      ∃ e ∈ getListMessageDisplay msgs leafNodeId fuel, e.msg = n) :=
  ⟨fun e he => displayEntries_sibling_spec (nodeFind msgs) fuel rank hR hfuel _ e he,
   fun n hn hroot p hp => displayEntries_coverage (nodeFind msgs) fuel _ n hn hroot p hp⟩

def c4Entry : MessageDisplay :=
  { msg := { id := 2, convId := str "c", type := MsgType.text, timestamp := 2,
             role := Role.user, content := some (str "m2"), parent := 1,
             children := [3] },
    siblingLeafNodeIds := [3, 6], siblingCurrIdx := 0 }

/-- C4 witness: in the example tree, the entry for node 2 (display for leaf 3)
has sibling leaf ids satisfying the descent specification for children [2, 6]
of the root, and sibling index 0. -/
theorem c4_sibling_leaves_and_index_witness :
    ∃ p, nodeFind exampleMsgs c4Entry.msg.parent = some p ∧
      List.Forall₂ (fun c r => LeafResult (nodeFind exampleMsgs) c r) p.children
        c4Entry.siblingLeafNodeIds ∧
      c4Entry.siblingCurrIdx = indexOfTS p.children c4Entry.msg.id ∧
      (c4Entry.msg.id ∈ p.children → 0 ≤ c4Entry.siblingCurrIdx ∧
        p.children.get? c4Entry.siblingCurrIdx.toNat = some c4Entry.msg.id) :=
  (c4_sibling_leaves_and_index exampleMsgs 3 10 exampleRank exampleRank_decreasing
    (by
      intro i
      unfold exampleRank
      split
      · decide
      · split
        · decide
        · decide)).1 c4Entry (by decide)
